import Mathlib

/-!
Verification of the NRS (name resolution system) subsystem of `sn_api`
(`src/api/nrs.rs`), shallowly embedded in Lean 4.

Rust `String` / `&str` values are modelled as `List Char`; `Vec<u8>` payloads
are modelled the same way (the code only ever stores valid UTF-8, on which
`String::from_utf8_lossy` is the identity).  Fallible Rust functions returning
`ResultReturn<T>` are modelled as `Except Error T`.  The mutable `Safe`
receiver is modelled by explicit state passing: each mutating operation
returns its `Except` result together with the (possibly updated) `Safe`
state.
-/

/-- Rust string slices and owned strings, as lists of characters. -/
abbrev RStr := List Char

/-- Decimal digit to character (total; digits above 9 never occur). -/
def digitChar (d : Nat) : Char :=
  match d with
  | 0 => '0'
  | 1 => '1'
  | 2 => '2'
  | 3 => '3'
  | 4 => '4'
  | 5 => '5'
  | 6 => '6'
  | 7 => '7'
  | 8 => '8'
  | 9 => '9'
  | _ => 'X'

/-- Character back to decimal digit, `none` on non-digits. -/
def charDigitVal (c : Char) : Option Nat :=
  if c = '0' then some 0
  else if c = '1' then some 1
  else if c = '2' then some 2
  else if c = '3' then some 3
  else if c = '4' then some 4
  else if c = '5' then some 5
  else if c = '6' then some 6
  else if c = '7' then some 7
  else if c = '8' then some 8
  else if c = '9' then some 9
  else none

theorem charDigitVal_digitChar {d : Nat} (hd : d < 10) :
    charDigitVal (digitChar d) = some d := by
  interval_cases d <;> rfl

theorem digitChar_ne_dot {d : Nat} (hd : d < 10) : digitChar d ≠ '.' := by
  interval_cases d <;> decide

theorem digitChar_ne_comma {d : Nat} (hd : d < 10) : digitChar d ≠ ',' := by
  interval_cases d <;> decide

theorem digitChar_ne_slash {d : Nat} (hd : d < 10) : digitChar d ≠ '/' := by
  interval_cases d <;> decide

theorem digitChar_ne_colon {d : Nat} (hd : d < 10) : digitChar d ≠ ':' := by
  interval_cases d <;> decide

/-- Little-endian base-10 digits of a natural number, fuelled so that the
definition is structurally recursive (and hence reduces by `rfl`). -/
def natDigitsAux : Nat → Nat → List Nat
  | 0, _ => []
  | _ + 1, 0 => []
  | fuel + 1, n + 1 => ((n + 1) % 10) :: natDigitsAux fuel ((n + 1) / 10)

/-- Little-endian base-10 digits of `n` (empty for `0`). -/
def natDigits (n : Nat) : List Nat := natDigitsAux n n

/-- Value of a little-endian base-10 digit list. -/
def natOfDigits (l : List Nat) : Nat := l.foldr (fun d a => d + 10 * a) 0

theorem natOfDigits_natDigitsAux :
    ∀ (fuel n : Nat), n ≤ fuel → natOfDigits (natDigitsAux fuel n) = n := by
  intro fuel
  induction fuel with
  | zero => intro n hn; interval_cases n; rfl
  | succ f ih =>
    intro n hn
    match n with
    | 0 => rfl
    | m + 1 =>
      have hdiv : (m + 1) / 10 ≤ f := by
        have := Nat.div_lt_self (Nat.succ_pos m) (by norm_num : 1 < 10)
        omega
      simp only [natDigitsAux, natOfDigits, List.foldr_cons]
      have := ih ((m + 1) / 10) hdiv
      simp only [natOfDigits] at this
      rw [this]
      omega

theorem natOfDigits_natDigits (n : Nat) : natOfDigits (natDigits n) = n :=
  natOfDigits_natDigitsAux n n (Nat.le_refl n)

theorem natDigitsAux_lt_ten :
    ∀ (fuel n : Nat), ∀ d ∈ natDigitsAux fuel n, d < 10 := by
  intro fuel
  induction fuel with
  | zero => intro n d hd; simp [natDigitsAux] at hd
  | succ f ih =>
    intro n d hd
    match n with
    | 0 => simp [natDigitsAux] at hd
    | m + 1 =>
      simp only [natDigitsAux, List.mem_cons] at hd
      rcases hd with h | h
      · subst h; exact Nat.mod_lt _ (by norm_num)
      · exact ih _ _ h

theorem natDigits_lt_ten (n : Nat) : ∀ d ∈ natDigits n, d < 10 :=
  natDigitsAux_lt_ten n n

/-- Decimal rendering of a natural number (little-endian digit order; the
order is irrelevant to the protocol, only the round trip matters). -/
def encNat (n : Nat) : RStr := (natDigits n).map digitChar

/-- Parse a character list of decimal digits back to a number. -/
def decDigits : RStr → Option (List Nat)
  | [] => some []
  | c :: cs =>
    match charDigitVal c, decDigits cs with
    | some d, some ds => some (d :: ds)
    | _, _ => none

/-- Inverse of `encNat`. -/
def decNat (cs : RStr) : Option Nat := (decDigits cs).map natOfDigits

theorem decDigits_map_digitChar {l : List Nat} (h : ∀ d ∈ l, d < 10) :
    decDigits (l.map digitChar) = some l := by
  induction l with
  | nil => rfl
  | cons d ds ih =>
    simp only [List.map_cons, decDigits]
    rw [charDigitVal_digitChar (h d (List.mem_cons_self d ds)),
        ih (fun x hx => h x (List.mem_cons_of_mem d hx))]

theorem decNat_encNat (n : Nat) : decNat (encNat n) = some n := by
  simp only [decNat, encNat, decDigits_map_digitChar (natDigits_lt_ten n)]
  simp [natOfDigits_natDigits]

theorem encNat_chars {n : Nat} : ∀ c ∈ encNat n,
    c ≠ '.' ∧ c ≠ ',' ∧ c ≠ '/' ∧ c ≠ ':' := by
  intro c hc
  simp only [encNat, List.mem_map] at hc
  obtain ⟨d, hd, rfl⟩ := hc
  have h10 := natDigits_lt_ten n d hd
  exact ⟨digitChar_ne_dot h10, digitChar_ne_comma h10,
    digitChar_ne_slash h10, digitChar_ne_colon h10⟩

/-- Does `pat` occur at the head of `cs`? (models `str::starts_with`). -/
def leadsWith : List Char → List Char → Bool
  | [], _ => true
  | _ :: _, [] => false
  | p :: ps, c :: cs => p = c && leadsWith ps cs

theorem leadsWith_append (p r : List Char) : leadsWith p (p ++ r) = true := by
  induction p with
  | nil => rfl
  | cons c cs ih => simp [leadsWith, ih]

/-- Split a character list at every occurrence of `sep`; always returns a
non-empty list of (possibly empty) segments (models `str::split`). -/
def splitOnChar (sep : Char) : List Char → List (List Char)
  | [] => [[]]
  | c :: cs =>
    match splitOnChar sep cs with
    | [] => [[]]
    | h :: t => if c = sep then [] :: h :: t else (c :: h) :: t

theorem splitOnChar_ne_nil (sep : Char) (cs : List Char) :
    splitOnChar sep cs ≠ [] := by
  cases cs with
  | nil => simp [splitOnChar]
  | cons c cs =>
    simp only [splitOnChar]
    rcases h : splitOnChar sep cs with _ | ⟨h', t⟩
    · simp
    · by_cases hc : c = sep <;> simp [hc]

/-- Interleave `sep` between segments (models joining; inverse of split). -/
def joinSep (sep : Char) : List (List Char) → List Char
  | [] => []
  | [x] => x
  | x :: y :: t => x ++ sep :: joinSep sep (y :: t)

theorem splitOnChar_append_of_not_mem {sep : Char} {a : List Char}
    (ha : sep ∉ a) (r : List Char) :
    splitOnChar sep (a ++ r) =
      match splitOnChar sep r with
      | [] => [[]]
      | h :: t => (a ++ h) :: t := by
  induction a with
  | nil =>
    rcases h : splitOnChar sep r with _ | ⟨h', t⟩
    · exact absurd h (splitOnChar_ne_nil sep r)
    · simp only [List.nil_append]
      exact h
  | cons c cs ih =>
    have hc : c ≠ sep := fun h => ha (h ▸ List.mem_cons_self c cs)
    have hcs : sep ∉ cs := fun h => ha (List.mem_cons_of_mem c h)
    rcases hr : splitOnChar sep r with _ | ⟨h', t⟩
    · exact absurd hr (splitOnChar_ne_nil sep r)
    · have hrec := ih hcs
      rw [hr] at hrec
      simp only [List.cons_append, splitOnChar, List.append_eq, hrec,
        if_neg hc]

theorem splitOnChar_joinSep {sep : Char} :
    ∀ (xss : List (List Char)), xss ≠ [] → (∀ xs ∈ xss, sep ∉ xs) →
      splitOnChar sep (joinSep sep xss) = xss := by
  intro xss
  induction xss with
  | nil => intro h; exact absurd rfl h
  | cons x t ih =>
    intro _ hmem
    match t with
    | [] =>
      simp only [joinSep]
      have hx : sep ∉ x := hmem x (List.mem_cons_self x [])
      have := splitOnChar_append_of_not_mem hx ([] : List Char)
      simpa [splitOnChar] using this
    | y :: t' =>
      simp only [joinSep]
      have hx : sep ∉ x := hmem x (List.mem_cons_self x _)
      have hrec : splitOnChar sep (joinSep sep (y :: t')) = y :: t' :=
        ih (by simp) (fun xs hxs => hmem xs (List.mem_cons_of_mem x hxs))
      rw [splitOnChar_append_of_not_mem hx]
      simp only [splitOnChar, hrec]
      simp

theorem mem_splitOnChar_not_sep (sep : Char) :
    ∀ (cs : List Char), ∀ xs ∈ splitOnChar sep cs, sep ∉ xs := by
  intro cs
  induction cs with
  | nil =>
    intro xs hxs
    simp only [splitOnChar, List.mem_singleton] at hxs
    subst hxs; simp
  | cons c cs ih =>
    intro xs hxs
    rcases h : splitOnChar sep cs with _ | ⟨h', t⟩
    · exact absurd h (splitOnChar_ne_nil sep cs)
    · simp only [splitOnChar, h] at hxs
      by_cases hc : c = sep
      · rw [if_pos hc] at hxs
        rcases List.mem_cons.1 hxs with rfl | hxs
        · simp
        · exact ih xs (by rw [h]; exact hxs)
      · rw [if_neg hc] at hxs
        rcases List.mem_cons.1 hxs with rfl | hxs
        · intro hmem
          rcases List.mem_cons.1 hmem with rfl | hmem
          · exact hc rfl
          · exact ih h' (by rw [h]; exact List.mem_cons_self h' t) hmem
        · exact ih xs (by rw [h]; exact List.mem_cons_of_mem h' hxs)

theorem mem_of_mem_splitOnChar (sep : Char) :
    ∀ (cs : List Char), ∀ xs ∈ splitOnChar sep cs, ∀ c ∈ xs, c ∈ cs := by
  intro cs
  induction cs with
  | nil =>
    intro xs hxs c hc
    simp only [splitOnChar, List.mem_singleton] at hxs
    subst hxs; simp at hc
  | cons a cs ih =>
    intro xs hxs c hc
    rcases h : splitOnChar sep cs with _ | ⟨h', t⟩
    · exact absurd h (splitOnChar_ne_nil sep cs)
    · simp only [splitOnChar, h] at hxs
      by_cases ha : a = sep
      · rw [if_pos ha] at hxs
        rcases List.mem_cons.1 hxs with rfl | hxs
        · simp at hc
        · exact List.mem_cons_of_mem a (ih xs (by rw [h]; exact hxs) c hc)
      · rw [if_neg ha] at hxs
        rcases List.mem_cons.1 hxs with rfl | hxs
        · rcases List.mem_cons.1 hc with rfl | hc
          · exact List.mem_cons_self c cs
          · exact List.mem_cons_of_mem a
              (ih h' (by rw [h]; exact List.mem_cons_self h' t) c hc)
        · exact List.mem_cons_of_mem a
            (ih xs (by rw [h]; exact List.mem_cons_of_mem h' hxs) c hc)

/-- Split off the last element of a list. -/
def splitLast : List α → Option (List α × α)
  | [] => none
  | [x] => some ([], x)
  | x :: y :: t =>
    match splitLast (y :: t) with
    | some (i, l) => some (x :: i, l)
    | none => none

theorem splitLast_append_singleton (xs : List α) (x : α) :
    splitLast (xs ++ [x]) = some (xs, x) := by
  induction xs with
  | nil => rfl
  | cons a t ih =>
    cases t with
    | nil => simp [splitLast]
    | cons b t' =>
      simp only [List.cons_append, List.append_eq, splitLast] at ih ⊢
      rw [ih]

/-- Split at the first slash: everything before the first `'/'`, and the
rest of the list from that slash (inclusive); models splitting a URL into
its host part and its path suffix. -/
def splitAtFirstSlash : RStr → RStr × RStr
  | [] => ([], [])
  | c :: cs =>
    if c = '/' then ([], c :: cs)
    else
      let r := splitAtFirstSlash cs
      (c :: r.1, r.2)

theorem splitAtFirstSlash_append {a : RStr} (ha : '/' ∉ a) {p : RStr}
    (hp : p = [] ∨ ∃ t, p = '/' :: t) :
    splitAtFirstSlash (a ++ p) = (a, p) := by
  induction a with
  | nil =>
    rcases hp with rfl | ⟨t, rfl⟩
    · rfl
    · simp [splitAtFirstSlash]
  | cons c cs ih =>
    have hc : c ≠ '/' := fun h => ha (h ▸ List.mem_cons_self c cs)
    have hcs : '/' ∉ cs := fun h => ha (List.mem_cons_of_mem c h)
    simp only [List.cons_append, splitAtFirstSlash, List.append_eq,
      if_neg hc, ih hcs]

theorem splitAtFirstSlash_fst_no_slash :
    ∀ (cs : RStr), '/' ∉ (splitAtFirstSlash cs).1 := by
  intro cs
  induction cs with
  | nil => simp [splitAtFirstSlash]
  | cons c cs ih =>
    by_cases hc : c = '/'
    · simp [splitAtFirstSlash, hc]
    · simp only [splitAtFirstSlash, if_neg hc]
      intro hmem
      rcases List.mem_cons.1 hmem with rfl | hmem
      · exact hc rfl
      · exact ih hmem

theorem splitAtFirstSlash_snd_shape :
    ∀ (cs : RStr), (splitAtFirstSlash cs).2 = [] ∨
      ∃ t, (splitAtFirstSlash cs).2 = '/' :: t := by
  intro cs
  induction cs with
  | nil => left; rfl
  | cons c cs ih =>
    by_cases hc : c = '/'
    · right; exact ⟨cs, by simp [splitAtFirstSlash, hc]⟩
    · simp only [splitAtFirstSlash, if_neg hc]
      exact ih

/-- The URL scheme string, `"safe://"`. -/
def schemeChars : RStr := ("safe://").data

/-- Strip a leading `"safe://"` scheme, `none` when it is absent
(models `str::strip_prefix`-style scheme removal in the locator codec). -/
def dropScheme (cs : RStr) : Option RStr :=
  if leadsWith schemeChars cs then some (cs.drop schemeChars.length)
  else none

theorem dropScheme_append (r : RStr) :
    dropScheme (schemeChars ++ r) = some r := by
  simp only [dropScheme, leadsWith_append, if_true]
  simp

/-- Replace every occurrence of `pat` by `rep`, scanning left to right with
non-overlapping matches: models Rust `str::replace`.  Fuelled so the
definition is structurally recursive. -/
def replaceAllAux (pat rep : List Char) : Nat → List Char → List Char
  | 0, cs => cs
  | _ + 1, [] => []
  | fuel + 1, c :: cs =>
    if leadsWith pat (c :: cs) ∧ pat ≠ [] then
      rep ++ replaceAllAux pat rep fuel ((c :: cs).drop pat.length)
    else c :: replaceAllAux pat rep fuel cs

/-- Rust `str::replace`: replace all occurrences of `pat` by `rep`. -/
def replaceAll (cs pat rep : List Char) : List Char :=
  replaceAllAux pat rep cs.length cs

/-- Errors of the `sn_api` crate that the NRS module constructs or matches
on (`Error` in the source; only the variants reachable from `nrs.rs` are
modelled, each carrying its message string). -/
inductive Error
  | ContentError (msg : RStr)
  | EmptyContent (msg : RStr)
  | ContentNotFound (msg : RStr)
  | NetDataError (msg : RStr)
  | Unexpected (msg : RStr)
  | InvalidXorUrl (msg : RStr)
  deriving DecidableEq, Repr

/-- `SafeDataType` enum from `xorurl.rs` (closed set of tagged variants with
a stable numeric mapping, per the spec's Locator data-kind field). -/
inductive SafeDataType
  | SafeKey
  | PublishedImmutableData
  | PublishedSeqAppendOnlyData
  | SeqMutableData
  deriving DecidableEq, Repr

/-- Stable numeric code of a data kind. -/
def SafeDataType.code : SafeDataType → Nat
  | .SafeKey => 0
  | .PublishedImmutableData => 1
  | .PublishedSeqAppendOnlyData => 2
  | .SeqMutableData => 3

/-- Decode a numeric code back to a data kind. -/
def SafeDataType.ofCode : Nat → Option SafeDataType
  | 0 => some .SafeKey
  | 1 => some .PublishedImmutableData
  | 2 => some .PublishedSeqAppendOnlyData
  | 3 => some .SeqMutableData
  | _ => none

theorem SafeDataType.ofCode_code_data (dt : SafeDataType) :
    SafeDataType.ofCode dt.code = some dt := by
  cases dt <;> rfl

/-- `SafeContentType` enum from `xorurl.rs` (the Locator content-kind
field). -/
inductive SafeContentType
  | Raw
  | Wallet
  | FilesContainer
  | NrsMapContainer
  deriving DecidableEq, Repr

/-- Stable numeric code of a content kind. -/
def SafeContentType.code : SafeContentType → Nat
  | .Raw => 0
  | .Wallet => 1
  | .FilesContainer => 2
  | .NrsMapContainer => 3

/-- Decode a numeric code back to a content kind. -/
def SafeContentType.ofCode : Nat → Option SafeContentType
  | 0 => some .Raw
  | 1 => some .Wallet
  | 2 => some .FilesContainer
  | 3 => some .NrsMapContainer
  | _ => none

theorem SafeContentType.ofCode_code_content (ct : SafeContentType) :
    SafeContentType.ofCode ct.code = some ct := by
  cases ct <;> rfl

/-- 32-byte content address (`XorName`), bytes as naturals. -/
abbrev XorNameT := List Nat

/-- The structured locator (`XorUrlEncoder` in `xorurl.rs`): content
address, type tag, data kind, content kind, optional path (here: possibly
empty) and subname chain. -/
structure XorUrlEncoder where
  xorname : XorNameT
  type_tag : Nat
  data_type : SafeDataType
  content_type : SafeContentType
  path : RStr
  sub_names : List RStr
  deriving DecidableEq, Repr

/-- Fallible Rust results (`ResultReturn<T>`). -/
abbrev ResultReturn (α : Type) := Except Error α

/-- Modelled from the spec: the Locator Codec's binary header
(§4.1) packs a version byte, the data-kind and content-kind codes, the type
tag, and the 32 address bytes; we render it as comma-separated decimal
numbers, which round-trips exactly and — like the real base-encoded header —
never parses for an ordinary public name. -/
def headerChars (xn : XorNameT) (tag : Nat) (dt : SafeDataType)
    (ct : SafeContentType) : RStr :=
  joinSep ',' (encNat 1 :: encNat dt.code :: encNat ct.code :: encNat tag ::
    xn.map encNat)

/-- Modelled from the spec: `XorUrlEncoder::encode` (xorurl.rs is not under
`src/`); composes `safe://[subname.]*header[/path]` per §4.1. -/
def xorurl_encode (xn : XorNameT) (tag : Nat) (dt : SafeDataType)
    (ct : SafeContentType) (path : RStr) (subs : List RStr) : RStr :=
  schemeChars ++ joinSep '.' (subs ++ [headerChars xn tag dt ct]) ++ path

/-- Message used when a URL has no `safe://` scheme. -/
def msgNoScheme : RStr := ("Invalid XOR-URL, no safe scheme").data

/-- Message used when the header segment of a URL cannot be decoded. -/
def msgBadHeader : RStr := ("Invalid XOR-URL, failed to decode header").data

/-- Decode the header segment: comma-separated decimal numbers, version 1,
known data/content-kind codes, exactly 32 address bytes. -/
def decodeHeader (body : RStr) : Option (XorNameT × Nat × SafeDataType × SafeContentType) :=
  match decSegs (splitOnChar ',' body) with
  | none => none
  | some ns =>
    match ns with
    | v :: dc :: cc :: tag :: rest =>
      if v = 1 ∧ rest.length = 32 then
        match SafeDataType.ofCode dc, SafeContentType.ofCode cc with
        | some dt, some ct => some (rest, tag, dt, ct)
        | _, _ => none
      else none
    | _ => none
where
  /-- Parse each comma segment as a decimal number. -/
  decSegs : List RStr → Option (List Nat)
    | [] => some []
    | s :: ss =>
      match decNat s, decSegs ss with
      | some n, some ns => some (n :: ns)
      | _, _ => none

/-- Decode of the scheme-stripped remainder of a locator string: split off
the path, split the host on dots, decode the last label as the header. -/
def from_url_rest (rest : RStr) : ResultReturn XorUrlEncoder :=
  match splitLast (splitOnChar '.' (splitAtFirstSlash rest).1) with
  | none => .error (.InvalidXorUrl msgBadHeader)
  | some (subs, body) =>
    match decodeHeader body with
    | none => .error (.InvalidXorUrl msgBadHeader)
    | some (xn, tag, dt, ct) => .ok ⟨xn, tag, dt, ct, (splitAtFirstSlash rest).2, subs⟩

/-- Modelled from the spec: `XorUrlEncoder::from_url` (xorurl.rs is not
under `src/`); the Locator Codec decode of §4.1, failing recoverably when
the scheme is absent or the header segment does not parse. -/
def from_url (url : RStr) : ResultReturn XorUrlEncoder :=
  match dropScheme url with
  | none => .error (.InvalidXorUrl msgNoScheme)
  | some rest => from_url_rest rest

/-- Modelled from the spec: `XorUrlEncoder::to_string` (xorurl.rs is not
under `src/`); re-serializes a locator (the base argument of the source is
irrelevant to the model, which uses a single rendering). -/
def XorUrlEncoder.to_string (enc : XorUrlEncoder) (_base : RStr) : ResultReturn RStr :=
  .ok (xorurl_encode enc.xorname enc.type_tag enc.data_type enc.content_type
    enc.path enc.sub_names)

theorem mem_joinSep {sep : Char} :
    ∀ (xss : List (List Char)), ∀ c ∈ joinSep sep xss,
      c = sep ∨ ∃ xs ∈ xss, c ∈ xs := by
  intro xss
  induction xss with
  | nil => intro c hc; simp [joinSep] at hc
  | cons x t ih =>
    intro c hc
    match t with
    | [] =>
      right
      exact ⟨x, List.mem_cons_self x [], by simpa [joinSep] using hc⟩
    | y :: t' =>
      simp only [joinSep, List.mem_append, List.mem_cons] at hc
      rcases hc with hc | hc | hc
      · right; exact ⟨x, List.mem_cons_self x _, hc⟩
      · left; exact hc
      · rcases ih c hc with h | ⟨xs, hxs, hcxs⟩
        · left; exact h
        · right; exact ⟨xs, List.mem_cons_of_mem x hxs, hcxs⟩

/-- Type tag for the NrsMapContainer (`NRS_MAP_TYPE_TAG` in nrs.rs). -/
def NRS_MAP_TYPE_TAG : Nat := 1500

/-- The specific not-found message of nrs.rs
(`ERROR_MSG_NO_NRS_MAP_FOUND`). -/
def ERROR_MSG_NO_NRS_MAP_FOUND : RStr := ("No NRS Map found at this address").data

/-- Modelled from the spec: `CONTENT_ADDED_SIGN` (constants.rs is not under
`src/`); the ADDED action marker of a Processed Entry Record. -/
def CONTENT_ADDED_SIGN : RStr := ("+").data

/-- Modelled from the spec: `CONTENT_DELETED_SIGN` (constants.rs is not
under `src/`); the DELETED action marker of a Processed Entry Record. -/
def CONTENT_DELETED_SIGN : RStr := ("-").data

/-- Modelled from the spec: `FAKE_RDF_PREDICATE_LINK` (constants.rs is not
under `src/`); the predicate key under which an opaque default link is
stored. -/
def FAKE_RDF_PREDICATE_LINK : RStr := ("link").data

/-- UTF-8 bytes of a string (`String::into_bytes`); exact on the ASCII
names the subsystem handles. -/
def strBytes (s : RStr) : List Nat := s.map Char.toNat

/-- Modelled from the spec: the Name Hasher of §4.2 (tiny_keccak's
`sha3_256` is external to `src/`): a fixed, pure, deterministic function
from byte lists to 32-byte digests. -/
def sha3_256 (bs : List Nat) : List Nat :=
  (List.range 32).map (fun i => bs.foldl (fun a b => (a * 31 + b + i + 1) % 256) (i + 7))

theorem sha3_256_length (bs : List Nat) : (sha3_256 bs).length = 32 := by
  simp [sha3_256]

/-- `xorname_from_nrs_string` from nrs.rs: hash the UTF-8 bytes of the
name and reinterpret the digest as a content address. -/
def xorname_from_nrs_string (name : RStr) : ResultReturn XorNameT :=
  .ok (sha3_256 (strBytes name))

/-- Modelled from the spec: `get_subnames_host_and_path` (helpers.rs is not
under `src/`); §4.2 name normalization: strip a leading scheme, split off
the path at the first slash, split the host on `.` with the last label as
the public name and the preceding labels as subnames, outermost first. -/
def get_subnames_host_and_path (url : RStr) :
    ResultReturn (List RStr × RStr × RStr) :=
  get_subnames_core (match dropScheme url with
    | some r => r
    | none => url)
where
  /-- Normalization of the scheme-stripped remainder. -/
  get_subnames_core (rest : RStr) : ResultReturn (List RStr × RStr × RStr) :=
    match splitLast (splitOnChar '.' (splitAtFirstSlash rest).1) with
    | none => .error (.InvalidXorUrl msgBadHeader)
    | some (subs, host) => .ok (subs, host, (splitAtFirstSlash rest).2)

/-- `sanitised_nrs_url` from nrs.rs: `format!("safe://{}",
name.replace("safe://", ""))`. -/
def sanitised_nrs_url (name : RStr) : RStr :=
  schemeChars ++ replaceAll name schemeChars []

/-- `Safe::parse_url` from nrs.rs: try the locator codec first, fall back
to NRS name resolution on decode failure. -/
def parse_url (url : RStr) : ResultReturn XorUrlEncoder :=
  match from_url url with
  | .ok enc => .ok enc
  | .error _ =>
    match get_subnames_host_and_path url with
    | .error e => .error e
    | .ok (sub_names, host_str, path) =>
      match xorname_from_nrs_string host_str with
      | .error e => .error e
      | .ok hashed_host =>
        .ok ⟨hashed_host, NRS_MAP_TYPE_TAG, .PublishedSeqAppendOnlyData,
          .NrsMapContainer, path, sub_names⟩

/-- Modelled from the spec: the default entry of a Resolution Map (§3,
nrs_map.rs is not under `src/`): unset, pointing at a named subname entry,
or holding an opaque link value keyed by the link predicate. -/
inductive DefaultRdf
  | NotSet
  | ExistingRdf (name : RStr)
  | OtherRdf (data : List (RStr × RStr))
  deriving DecidableEq, Repr

/-- Modelled from the spec: the Resolution Map (§3, nrs_map.rs is not under
`src/`): a subname table (subname string to link value) plus the default
entry. -/
structure NrsMap where
  sub_names_map : List (RStr × RStr)
  default : DefaultRdf
  deriving DecidableEq, Repr

/-- `NrsMap::default()`: fresh empty map. -/
def emptyNrsMap : NrsMap := ⟨[], .NotSet⟩

/-- Association-list lookup (models `BTreeMap::get`). -/
def lookupKey : List (RStr × RStr) → RStr → Option RStr
  | [], _ => none
  | (k, v) :: t, key => if k = key then some v else lookupKey t key

/-- Association-list insert-or-overwrite (models `BTreeMap::insert`). -/
def insertKey : List (RStr × RStr) → RStr → RStr → List (RStr × RStr)
  | [], key, v => [(key, v)]
  | (k, v0) :: t, key, v =>
    if k = key then (k, v) :: t else (k, v0) :: insertKey t key v

/-- Association-list removal (models `BTreeMap::remove`). -/
def eraseKey : List (RStr × RStr) → RStr → List (RStr × RStr)
  | [], _ => []
  | (k, v0) :: t, key => if k = key then t else (k, v0) :: eraseKey t key

/-- Modelled from the spec: `NrsMap::nrs_map_update_or_create_data`
(nrs_map.rs is not under `src/`); §4.4 Add's "update-or-create": insert or
overwrite the subname entry with the destination link, and when
`make_default` is set point the default at that subname — or, for a root
name with no subname, store the destination directly as an opaque default
link.  Returns the resulting link. -/
def nrs_map_update_or_create_data (m : NrsMap) (name : RStr)
    (destination : Option RStr) (deflt : Bool) : ResultReturn (RStr × NrsMap) :=
  match get_subnames_host_and_path (sanitised_nrs_url name) with
  | .error e => .error e
  | .ok (subs, _host, _path) =>
    let link := match destination with
      | some d => d
      | none => []
    if subs = [] then
      if deflt then
        .ok (link, { m with default := .OtherRdf [(FAKE_RDF_PREDICATE_LINK, link)] })
      else .ok (link, m)
    else
      let key := joinSep '.' subs
      let m2 := { m with sub_names_map := insertKey m.sub_names_map key link }
      if deflt then .ok (link, { m2 with default := .ExistingRdf key })
      else .ok (link, m2)

/-- Message for removing a subname that is not in the map. -/
def msgNoSubname : RStr := ("Sub name not found in NRS Map Container").data

/-- Modelled from the spec: `NrsMap::nrs_map_remove_subname` (nrs_map.rs is
not under `src/`); §4.4 Remove: remove the subname entry for the name,
failing when no such entry exists, and return the removed link value. -/
def nrs_map_remove_subname (m : NrsMap) (name : RStr) :
    ResultReturn (RStr × NrsMap) :=
  match get_subnames_host_and_path (sanitised_nrs_url name) with
  | .error e => .error e
  | .ok (subs, _host, _path) =>
    let key := joinSep '.' subs
    match lookupKey m.sub_names_map key with
    | none => .error (.ContentError msgNoSubname)
    | some link =>
      .ok (link, { m with sub_names_map := eraseKey m.sub_names_map key })

/-- Length-prefixed rendering of one string. -/
def serStr (s : RStr) : RStr := encNat s.length ++ ':' :: s

/-- Rendering of the pairs of an association list, in order. -/
def serPairsBody : List (RStr × RStr) → RStr
  | [] => []
  | (k, v) :: t => serStr k ++ serStr v ++ serPairsBody t

/-- Count-prefixed rendering of an association list. -/
def serPairs (ps : List (RStr × RStr)) : RStr :=
  encNat ps.length ++ ';' :: serPairsBody ps

/-- Rendering of the default entry, tagged by variant. -/
def serDefault : DefaultRdf → RStr
  | .NotSet => ['0']
  | .ExistingRdf n => '1' :: serStr n
  | .OtherRdf ps => '2' :: serPairs ps

/-- Modelled from the spec: the stable serialization of a Resolution Map
(§6 payload contract; serde_json and the `NrsMap` derives are external to
`src/`, and the spec admits any format whose encode/decode round-trip is
exact).  A length-prefixed text encoding of the subname table followed by
the default entry. -/
def serializeNrsMap (m : NrsMap) : RStr :=
  serPairs m.sub_names_map ++ serDefault m.default

/-- Greedily take leading decimal digits. -/
def takeDigits : RStr → List Nat × RStr
  | [] => ([], [])
  | c :: cs =>
    match charDigitVal c with
    | some d =>
      let r := takeDigits cs
      (d :: r.1, r.2)
    | none => ([], c :: cs)

/-- Parse one length-prefixed string; returns it with the rest of the
input. -/
def parseStr (cs : RStr) : Option (RStr × RStr) :=
  let td := takeDigits cs
  match td.2 with
  | ':' :: r =>
    let n := natOfDigits td.1
    if n ≤ r.length then some (r.take n, r.drop n) else none
  | _ => none

/-- Parse `n` key/value pairs. -/
def parsePairsBody : Nat → RStr → Option (List (RStr × RStr) × RStr)
  | 0, cs => some ([], cs)
  | n + 1, cs =>
    match parseStr cs with
    | none => none
    | some (k, cs1) =>
      match parseStr cs1 with
      | none => none
      | some (v, cs2) =>
        match parsePairsBody n cs2 with
        | none => none
        | some (t, cs3) => some ((k, v) :: t, cs3)

/-- Parse a count-prefixed association list. -/
def parsePairs (cs : RStr) : Option (List (RStr × RStr) × RStr) :=
  let td := takeDigits cs
  match td.2 with
  | ';' :: r => parsePairsBody (natOfDigits td.1) r
  | _ => none

/-- Parse a tagged default entry. -/
def parseDefault : RStr → Option (DefaultRdf × RStr)
  | '0' :: r => some (.NotSet, r)
  | '1' :: r => (parseStr r).map (fun p => (.ExistingRdf p.1, p.2))
  | '2' :: r => (parsePairs r).map (fun p => (.OtherRdf p.1, p.2))
  | _ => none

/-- Modelled from the spec: deserialization of a Resolution Map payload
(inverse of `serializeNrsMap`); `none` models a serde error on a corrupt
payload. -/
def deserializeNrsMap (cs : RStr) : Option NrsMap :=
  match parsePairs cs with
  | none => none
  | some (ps, r1) =>
    match parseDefault r1 with
    | some (d, []) => some ⟨ps, d⟩
    | _ => none

/-- Raw payload written to the store: one (timestamp key, serialized map)
entry (`NrsMapRawData` in nrs.rs). -/
abbrev NrsMapRawData := List (RStr × RStr)

/-- `gen_nrs_map_raw_data` from nrs.rs: one entry whose key is the current
timestamp (`gen_timestamp_secs` is external, so the timestamp is passed in)
and whose value is the serialized map. -/
def gen_nrs_map_raw_data (nrs_map : NrsMap) (now : RStr) :
    ResultReturn NrsMapRawData :=
  .ok [(now, serializeNrsMap nrs_map)]

/-- Modelled from the spec: the external versioned append-only store (§6;
scl_mock / safe_app are not under `src/`): containers keyed by (address,
type tag), each holding its ordered entry list.  The latest version of a
container is its entry count (1-based; the spec's Container Version). -/
abbrev SafeApp := List ((XorNameT × Nat) × List (RStr × RStr))

/-- Container lookup by (address, type tag). -/
def lookupStore : SafeApp → XorNameT × Nat → Option (List (RStr × RStr))
  | [], _ => none
  | (k, v) :: t, key => if k = key then some v else lookupStore t key

/-- Replace (or create) the entry list of a container. -/
def updateStore : SafeApp → XorNameT × Nat → List (RStr × RStr) → SafeApp
  | [], key, v => [(key, v)]
  | (k, v0) :: t, key, v =>
    if k = key then (k, v) :: t else (k, v0) :: updateStore t key v

/-- Last element of a non-empty list, passed head-first. -/
def lastEntry (e : α) : List α → α
  | [] => e
  | x :: xs => lastEntry x xs

/-- Store message: no container at the address. -/
def msgDataNotFound : RStr := ("SeqAppendOnlyDataNotFound").data

/-- Store message: the container exists but holds no entry. -/
def msgDataEmpty : RStr := ("SeqAppendOnlyDataEmpty").data

/-- Store message: version mismatch on append. -/
def msgVersionConflict : RStr := ("Invalid version for appending to AppendOnlyData").data

/-- Store message: put at an address that is already occupied. -/
def msgPutExists : RStr := ("AppendOnlyData already exists at this address").data

/-- Store message: the model requires an explicit target address. -/
def msgAddrRequired : RStr := ("Address required").data

/-- Modelled from the spec: `get_latest_versioned` (§6): `NotFound` when no
container exists at the address, `EmptyContent` when it exists with no
entry, otherwise the latest (version, entry). -/
def get_latest_seq_append_only_data (app : SafeApp) (name : XorNameT)
    (tag : Nat) : ResultReturn (Nat × (RStr × RStr)) :=
  match lookupStore app (name, tag) with
  | none => .error (.ContentNotFound msgDataNotFound)
  | some [] => .error (.EmptyContent msgDataEmpty)
  | some (e :: es) => .ok ((e :: es).length, lastEntry e es)

/-- Modelled from the spec: `append_versioned` (§6): appends the payload
when the expected next version is exactly one past the current entry count,
rejecting anything else as a conflict. -/
def append_seq_append_only_data (app : SafeApp) (data : NrsMapRawData)
    (newVersion : Nat) (name : XorNameT) (tag : Nat) : ResultReturn SafeApp :=
  match lookupStore app (name, tag) with
  | none => .error (.ContentNotFound msgDataNotFound)
  | some es =>
    if newVersion = es.length + 1 then
      .ok (updateStore app (name, tag) (es ++ data))
    else .error (.NetDataError msgVersionConflict)

/-- Modelled from the spec: `put_versioned` (§6): creates a fresh container
holding the initial payload at the caller-chosen address, failing when the
address is occupied. -/
def put_seq_append_only_data (app : SafeApp) (data : NrsMapRawData)
    (name : Option XorNameT) (tag : Nat) : ResultReturn (XorNameT × SafeApp) :=
  match name with
  | none => .error (.Unexpected msgAddrRequired)
  | some xn =>
    match lookupStore app (xn, tag) with
    | some _ => .error (.NetDataError msgPutExists)
    | none => .ok (xn, updateStore app (xn, tag) data)

/-- The `Safe` API handle: the store connection plus the chosen XOR-URL
base (the base is irrelevant to the model's single rendering). -/
structure Safe where
  safe_app : SafeApp
  xorurl_base : RStr
  deriving DecidableEq, Repr

/-- Per-call diff report (`ProcessedEntries` in nrs.rs): name to (action
sign, resulting link). -/
abbrev ProcessedEntries := List (RStr × (RStr × RStr))

/-- XOR-URL strings (`XorUrl` in lib.rs). -/
abbrev XorUrl := RStr

/-- Message produced when the stored payload fails to deserialize. -/
def msgCorrupt : RStr := ("Couldn't deserialise the NrsMap stored in the NrsContainer").data

/-- Message wrapping an unexpected store failure. -/
def msgFailedVersion : RStr := ("Failed to get current version").data

/-- Message for Create on an existing name. -/
def msgNameExists : RStr := ("NRS name already exists. Please use 'nrs add' command to add sub names to it").data

/-- `Safe::nrs_map_container_get_latest` from nrs.rs: fetch the latest
entry of the NRS Map Container at the URL's address; a value deserializes
(corrupt-map error when it does not), `EmptyContent` normalizes to version
0 with a fresh empty map, `ContentNotFound` becomes the specific no-NRS-map
error, anything else is wrapped as a `NetDataError`. -/
def nrs_map_container_get_latest (s : Safe) (url : RStr) :
    ResultReturn (Nat × NrsMap) :=
  match parse_url url with
  | .error e => .error e
  | .ok enc =>
    match get_latest_seq_append_only_data s.safe_app enc.xorname NRS_MAP_TYPE_TAG with
    | .ok (version, (_key, value)) =>
      match deserializeNrsMap value with
      | none => .error (.ContentError msgCorrupt)
      | some nrs_map => .ok (version, nrs_map)
    | .error (.EmptyContent _) => .ok (0, emptyNrsMap)
    | .error (.ContentNotFound _) =>
      .error (.ContentNotFound ERROR_MSG_NO_NRS_MAP_FOUND)
    | .error _ => .error (.NetDataError msgFailedVersion)

/-- `Safe::nrs_map_container_add` from nrs.rs: fetch the latest map for the
name's root, apply update-or-create, and — unless `dry_run` — append the
new map as `version + 1`; returns `version + 1`, the container XOR-URL, the
ADDED Processed Entry Record, and the new map.  The mutated store is
returned alongside (unchanged on error or dry run). -/
def nrs_map_container_add (s : Safe) (name : RStr) (destination : Option RStr)
    (deflt : Bool) (dry_run : Bool) (now : RStr) :
    ResultReturn (Nat × XorUrl × ProcessedEntries × NrsMap) × Safe :=
  match parse_url (sanitised_nrs_url name) with
  | .error e => (.error e, s)
  | .ok xorurl_encoder =>
    match xorurl_encoder.to_string [] with
    | .error e => (.error e, s)
    | .ok xorurl =>
      match nrs_map_container_get_latest s xorurl with
      | .error e => (.error e, s)
      | .ok (version, nrs_map) =>
        match nrs_map_update_or_create_data nrs_map name destination deflt with
        | .error e => (.error e, s)
        | .ok (link, nrs_map2) =>
          let processed_entries : ProcessedEntries :=
            [(name, (CONTENT_ADDED_SIGN, link))]
          match gen_nrs_map_raw_data nrs_map2 now with
          | .error e => (.error e, s)
          | .ok nrs_map_raw_data =>
            if dry_run then
              (.ok (version + 1, xorurl, processed_entries, nrs_map2), s)
            else
              match append_seq_append_only_data s.safe_app nrs_map_raw_data
                  (version + 1) xorurl_encoder.xorname xorurl_encoder.type_tag with
              | .error e => (.error e, s)
              | .ok app2 =>
                (.ok (version + 1, xorurl, processed_entries, nrs_map2),
                  { s with safe_app := app2 })

/-- `Safe::nrs_map_container_create` from nrs.rs: fails when fetching the
latest map for the name succeeds; otherwise mutates a fresh empty map,
and — unless `dry_run`, which returns an empty XOR-URL string — puts the
container at the hashed public name and returns its encoded XOR-URL,
alongside the ADDED Processed Entry Record and the map. -/
def nrs_map_container_create (s : Safe) (name : RStr)
    (destination : Option RStr) (deflt : Bool) (dry_run : Bool) (now : RStr) :
    ResultReturn (XorUrl × ProcessedEntries × NrsMap) × Safe :=
  match nrs_map_container_get_latest s (sanitised_nrs_url name) with
  | .ok _ => (.error (.ContentError msgNameExists), s)
  | .error _ => nrs_map_container_create_core s name destination deflt dry_run now
where
  /-- The branch of `nrs_map_container_create` taken when no existing map is
  found: mutate a fresh map and (unless `dry_run`) put the container. -/
  nrs_map_container_create_core (s : Safe) (name : RStr)
      (destination : Option RStr) (deflt : Bool) (dry_run : Bool) (now : RStr) :
      ResultReturn (XorUrl × ProcessedEntries × NrsMap) × Safe :=
    let nrs_url := sanitised_nrs_url name
    match nrs_map_update_or_create_data emptyNrsMap name destination deflt with
    | .error e => (.error e, s)
    | .ok (link, nrs_map) =>
      let processed_entries : ProcessedEntries :=
        [(name, (CONTENT_ADDED_SIGN, link))]
      match gen_nrs_map_raw_data nrs_map now with
      | .error e => (.error e, s)
      | .ok nrs_map_raw_data =>
        if dry_run then (.ok ([], processed_entries, nrs_map), s)
        else
          match get_subnames_host_and_path nrs_url with
          | .error e => (.error e, s)
          | .ok (_subs, public_name, _path) =>
            match xorname_from_nrs_string public_name with
            | .error e => (.error e, s)
            | .ok nrs_xorname =>
              match put_seq_append_only_data s.safe_app nrs_map_raw_data
                  (some nrs_xorname) NRS_MAP_TYPE_TAG with
              | .error e => (.error e, s)
              | .ok (xorname, app2) =>
                let xorurl := xorurl_encode xorname NRS_MAP_TYPE_TAG
                  .PublishedSeqAppendOnlyData .NrsMapContainer [] []
                (.ok (xorurl, processed_entries, nrs_map),
                  { s with safe_app := app2 })

/-- `Safe::nrs_map_container_remove` from nrs.rs: fetch the latest map,
remove the subname entry (failing before any store write when it is
absent), and — unless `dry_run` — append the new map as `version + 1`. -/
def nrs_map_container_remove (s : Safe) (name : RStr) (dry_run : Bool)
    (now : RStr) :
    ResultReturn (Nat × XorUrl × ProcessedEntries × NrsMap) × Safe :=
  match parse_url (sanitised_nrs_url name) with
  | .error e => (.error e, s)
  | .ok xorurl_encoder =>
    match xorurl_encoder.to_string [] with
    | .error e => (.error e, s)
    | .ok xorurl =>
      match nrs_map_container_get_latest s xorurl with
      | .error e => (.error e, s)
      | .ok (version, nrs_map) =>
        match nrs_map_remove_subname nrs_map name with
        | .error e => (.error e, s)
        | .ok (removed_link, nrs_map2) =>
          let processed_entries : ProcessedEntries :=
            [(name, (CONTENT_DELETED_SIGN, removed_link))]
          match gen_nrs_map_raw_data nrs_map2 now with
          | .error e => (.error e, s)
          | .ok nrs_map_raw_data =>
            if dry_run then
              (.ok (version + 1, xorurl, processed_entries, nrs_map2), s)
            else
              match append_seq_append_only_data s.safe_app nrs_map_raw_data
                  (version + 1) xorurl_encoder.xorname xorurl_encoder.type_tag with
              | .error e => (.error e, s)
              | .ok app2 =>
                (.ok (version + 1, xorurl, processed_entries, nrs_map2),
                  { s with safe_app := app2 })

theorem takeDigits_append {l : List Nat} (h : ∀ d ∈ l, d < 10) {c : Char}
    (hc : charDigitVal c = none) (r : RStr) :
    takeDigits (l.map digitChar ++ c :: r) = (l, c :: r) := by
  induction l with
  | nil => simp [takeDigits, hc]
  | cons d ds ih =>
    simp only [List.map_cons, List.cons_append, takeDigits, List.append_eq,
      charDigitVal_digitChar (h d (List.mem_cons_self d ds)),
      ih (fun x hx => h x (List.mem_cons_of_mem d hx))]

theorem takeDigits_encNat_cons {n : Nat} {c : Char}
    (hc : charDigitVal c = none) (r : RStr) :
    takeDigits (encNat n ++ c :: r) = (natDigits n, c :: r) :=
  takeDigits_append (natDigits_lt_ten n) hc r

theorem parseStr_serStr (s rest : RStr) :
    parseStr (serStr s ++ rest) = some (s, rest) := by
  have hcolon : charDigitVal ':' = none := by decide
  simp only [parseStr, serStr, List.append_assoc, List.cons_append,
    takeDigits_encNat_cons hcolon (s ++ rest), natOfDigits_natDigits]
  rw [if_pos (by simp)]
  rw [List.take_left, List.drop_left]

theorem parsePairsBody_serPairsBody (ps : List (RStr × RStr)) (rest : RStr) :
    parsePairsBody ps.length (serPairsBody ps ++ rest) = some (ps, rest) := by
  induction ps generalizing rest with
  | nil => rfl
  | cons p t ih =>
    obtain ⟨k, v⟩ := p
    simp only [List.length_cons, serPairsBody, parsePairsBody,
      List.append_assoc, parseStr_serStr, ih]

theorem parsePairs_serPairs (ps : List (RStr × RStr)) (rest : RStr) :
    parsePairs (serPairs ps ++ rest) = some (ps, rest) := by
  have hsemi : charDigitVal ';' = none := by decide
  simp only [parsePairs, serPairs, List.append_assoc, List.cons_append,
    takeDigits_encNat_cons hsemi (serPairsBody ps ++ rest),
    natOfDigits_natDigits]
  exact parsePairsBody_serPairsBody ps rest

theorem parseDefault_serDefault (d : DefaultRdf) (rest : RStr) :
    parseDefault (serDefault d ++ rest) = some (d, rest) := by
  cases d with
  | NotSet => rfl
  | ExistingRdf n =>
    simp [serDefault, parseDefault, parseStr_serStr n rest]
  | OtherRdf ps =>
    simp [serDefault, parseDefault, parsePairs_serPairs ps rest]

theorem deserializeNrsMap_serializeNrsMap (m : NrsMap) :
    deserializeNrsMap (serializeNrsMap m) = some m := by
  obtain ⟨sub, d⟩ := m
  simp only [deserializeNrsMap, serializeNrsMap,
    parsePairs_serPairs sub (serDefault d)]
  have := parseDefault_serDefault d []
  rw [List.append_nil] at this
  rw [this]

theorem decSegs_map_encNat (ns : List Nat) :
    decodeHeader.decSegs (ns.map encNat) = some ns := by
  induction ns with
  | nil => rfl
  | cons n t ih =>
    simp only [List.map_cons, decodeHeader.decSegs, decNat_encNat, ih]

theorem headerChars_mem {xn : XorNameT} {tag : Nat} {dt : SafeDataType}
    {ct : SafeContentType} :
    ∀ c ∈ headerChars xn tag dt ct, c = ',' ∨ ∃ k, c ∈ encNat k := by
  intro c hc
  rcases mem_joinSep _ c hc with h | ⟨seg, hseg, hcseg⟩
  · left; exact h
  · right
    simp only [List.mem_cons, List.mem_map] at hseg
    rcases hseg with rfl | rfl | rfl | rfl | ⟨k, _, rfl⟩
    · exact ⟨1, hcseg⟩
    · exact ⟨dt.code, hcseg⟩
    · exact ⟨ct.code, hcseg⟩
    · exact ⟨tag, hcseg⟩
    · exact ⟨k, hcseg⟩

theorem headerChars_no_dot_slash {xn : XorNameT} {tag : Nat}
    {dt : SafeDataType} {ct : SafeContentType} :
    ∀ c ∈ headerChars xn tag dt ct, c ≠ '.' ∧ c ≠ '/' := by
  intro c hc
  rcases headerChars_mem c hc with rfl | ⟨k, hk⟩
  · exact ⟨by decide, by decide⟩
  · obtain ⟨h1, _, h3, _⟩ := encNat_chars c hk
    exact ⟨h1, h3⟩

theorem headerChars_no_comma_in_segs {xn : XorNameT} {tag : Nat}
    {dt : SafeDataType} {ct : SafeContentType} :
    ∀ seg ∈ (encNat 1 :: encNat dt.code :: encNat ct.code :: encNat tag ::
      xn.map encNat), ',' ∉ seg := by
  intro seg hseg hmem
  simp only [List.mem_cons, List.mem_map] at hseg
  rcases hseg with rfl | rfl | rfl | rfl | ⟨k, _, rfl⟩ <;>
    exact absurd rfl (encNat_chars _ hmem).2.1

theorem decodeHeader_headerChars {xn : XorNameT} (hlen : xn.length = 32)
    (tag : Nat) (dt : SafeDataType) (ct : SafeContentType) :
    decodeHeader (headerChars xn tag dt ct) = some (xn, tag, dt, ct) := by
  simp only [decodeHeader, headerChars]
  rw [splitOnChar_joinSep _ (by simp) headerChars_no_comma_in_segs]
  have : (encNat 1 :: encNat dt.code :: encNat ct.code :: encNat tag ::
      xn.map encNat) = (1 :: dt.code :: ct.code :: tag :: xn).map encNat := by
    simp
  rw [this, decSegs_map_encNat]
  simp [hlen, SafeDataType.ofCode_code_data, SafeContentType.ofCode_code_content]

/-- Structural invariant of every locator the API constructs or decodes:
32-byte address, subnames free of separators, path empty or
slash-headed. -/
def WFEncoder (enc : XorUrlEncoder) : Prop :=
  enc.xorname.length = 32 ∧
  (∀ l ∈ enc.sub_names, '.' ∉ l ∧ '/' ∉ l) ∧
  (enc.path = [] ∨ ∃ t, enc.path = '/' :: t)

theorem from_url_xorurl_encode {xn : XorNameT} (hlen : xn.length = 32)
    {subs : List RStr} (hsubs : ∀ l ∈ subs, '.' ∉ l ∧ '/' ∉ l)
    {path : RStr} (hpath : path = [] ∨ ∃ t, path = '/' :: t)
    (tag : Nat) (dt : SafeDataType) (ct : SafeContentType) :
    from_url (xorurl_encode xn tag dt ct path subs) =
      .ok ⟨xn, tag, dt, ct, path, subs⟩ := by
  have hjoin_no_slash : '/' ∉ joinSep '.' (subs ++ [headerChars xn tag dt ct]) := by
    intro hmem
    rcases mem_joinSep _ _ hmem with h | ⟨seg, hseg, hcseg⟩
    · exact absurd h (by decide)
    · rcases List.mem_append.1 hseg with h | h
      · exact (hsubs seg h).2 hcseg
      · rw [List.mem_singleton.1 h] at hcseg
        exact (headerChars_no_dot_slash _ hcseg).2 rfl
  have hsplit : splitOnChar '.'
      (joinSep '.' (subs ++ [headerChars xn tag dt ct])) =
      subs ++ [headerChars xn tag dt ct] := by
    refine splitOnChar_joinSep _ (by simp) ?_
    intro xs hxs
    rcases List.mem_append.1 hxs with h | h
    · exact (hsubs xs h).1
    · rw [List.mem_singleton.1 h]
      intro hmem
      exact (headerChars_no_dot_slash _ hmem).1 rfl
  simp only [from_url, from_url_rest, xorurl_encode, List.append_assoc,
    dropScheme_append, splitAtFirstSlash_append hjoin_no_slash hpath, hsplit,
    splitLast_append_singleton, decodeHeader_headerChars hlen]

theorem splitLast_eq_some :
    ∀ {l i : List α} {x : α}, splitLast l = some (i, x) → l = i ++ [x] := by
  intro l
  induction l with
  | nil => intro i x h; simp [splitLast] at h
  | cons a t ih =>
    intro i x h
    match t with
    | [] =>
      simp only [splitLast, Option.some_inj, Prod.mk.injEq] at h
      obtain ⟨rfl, rfl⟩ := h.symm
      rfl
    | b :: t' =>
      simp only [splitLast] at h
      cases hs : splitLast (b :: t') with
      | none => rw [hs] at h; simp at h
      | some p =>
        obtain ⟨i', x'⟩ := p
        rw [hs] at h
        simp only [Option.some_inj, Prod.mk.injEq] at h
        obtain ⟨rfl, rfl⟩ := h.symm
        simp [ih hs]

theorem decodeHeader_length {body : RStr} {xn : XorNameT} {tag : Nat}
    {dt : SafeDataType} {ct : SafeContentType}
    (h : decodeHeader body = some (xn, tag, dt, ct)) : xn.length = 32 := by
  unfold decodeHeader at h
  split at h
  · simp at h
  · split at h
    · split at h
      · rename_i hcond
        split at h
        · simp only [Option.some_inj, Prod.mk.injEq] at h
          obtain ⟨h1, -⟩ := h
          rw [← h1]
          exact hcond.2
        · simp at h
      · simp at h
    · simp at h

theorem get_subnames_wf {url : RStr} {subs : List RStr} {host path : RStr}
    (h : get_subnames_host_and_path url = .ok (subs, host, path)) :
    (∀ l ∈ subs, '.' ∉ l ∧ '/' ∉ l) ∧ (path = [] ∨ ∃ t, path = '/' :: t) := by
  unfold get_subnames_host_and_path at h
  revert h
  generalize (match dropScheme url with
    | some r => r
    | none => url) = rest
  intro h
  unfold get_subnames_host_and_path.get_subnames_core at h
  split at h
  · simp at h
  · rename_i subs' host' hsplit
    simp only [Except.ok.injEq, Prod.mk.injEq] at h
    obtain ⟨rfl, rfl, rfl⟩ := h
    constructor
    · intro l hl
      have hmem : l ∈ splitOnChar '.' (splitAtFirstSlash rest).1 := by
        rw [splitLast_eq_some hsplit]
        exact List.mem_append_left _ hl
      refine ⟨mem_splitOnChar_not_sep '.' _ l hmem, ?_⟩
      intro hsl
      exact splitAtFirstSlash_fst_no_slash _
        (mem_of_mem_splitOnChar '.' _ l hmem '/' hsl)
    · exact splitAtFirstSlash_snd_shape _

theorem from_url_rest_wf {rest : RStr} {enc : XorUrlEncoder}
    (h : from_url_rest rest = .ok enc) : WFEncoder enc := by
  unfold from_url_rest at h
  split at h
  · simp at h
  · rename_i subs body hsplit
    split at h
    · simp at h
    all_goals
      rename_i hdec
      simp only [Except.ok.injEq] at h
      subst h
      refine ⟨decodeHeader_length hdec, ?_, ?_⟩
      · intro l hl
        have hmem : l ∈ splitOnChar '.' (splitAtFirstSlash rest).1 := by
          rw [splitLast_eq_some hsplit]
          exact List.mem_append_left _ hl
        refine ⟨mem_splitOnChar_not_sep '.' _ l hmem, ?_⟩
        intro hsl
        exact splitAtFirstSlash_fst_no_slash _
          (mem_of_mem_splitOnChar '.' _ l hmem '/' hsl)
      · exact splitAtFirstSlash_snd_shape _

theorem from_url_wf {url : RStr} {enc : XorUrlEncoder}
    (h : from_url url = .ok enc) : WFEncoder enc := by
  unfold from_url at h
  split at h
  · simp at h
  · exact from_url_rest_wf h

theorem parse_url_wf {url : RStr} {enc : XorUrlEncoder}
    (h : parse_url url = .ok enc) : WFEncoder enc := by
  unfold parse_url at h
  split at h
  · rename_i enc' hfu
    simp only [Except.ok.injEq] at h
    subst h
    exact from_url_wf hfu
  · rename_i e hfu
    split at h
    · simp at h
    · rename_i sub_names host_str path hsub
      simp only [xorname_from_nrs_string, Except.ok.injEq] at h
      subst h
      obtain ⟨hs, hp⟩ := get_subnames_wf hsub
      exact ⟨sha3_256_length _, hs, hp⟩

theorem from_url_to_string {enc : XorUrlEncoder} (hwf : WFEncoder enc)
    {u : RStr} (hts : enc.to_string [] = .ok u) : from_url u = .ok enc := by
  obtain ⟨h1, h2, h3⟩ := hwf
  simp only [XorUrlEncoder.to_string, Except.ok.injEq] at hts
  subst hts
  exact from_url_xorurl_encode h1 h2 h3 enc.type_tag enc.data_type
    enc.content_type

theorem parse_url_of_from_url {u : RStr} {enc : XorUrlEncoder}
    (h : from_url u = .ok enc) : parse_url u = .ok enc := by
  unfold parse_url
  rw [h]

/-- The body of `nrs_map_container_get_latest` once the URL has been parsed
to a locator with this address. -/
def getLatestAt (app : SafeApp) (xn : XorNameT) : ResultReturn (Nat × NrsMap) :=
  match get_latest_seq_append_only_data app xn NRS_MAP_TYPE_TAG with
  | .ok (version, (_key, value)) =>
    match deserializeNrsMap value with
    | none => .error (.ContentError msgCorrupt)
    | some nrs_map => .ok (version, nrs_map)
  | .error (.EmptyContent _) => .ok (0, emptyNrsMap)
  | .error (.ContentNotFound _) =>
    .error (.ContentNotFound ERROR_MSG_NO_NRS_MAP_FOUND)
  | .error _ => .error (.NetDataError msgFailedVersion)

theorem get_latest_eq_getLatestAt {s : Safe} {u : RStr} {enc : XorUrlEncoder}
    (h : parse_url u = .ok enc) :
    nrs_map_container_get_latest s u = getLatestAt s.safe_app enc.xorname := by
  unfold nrs_map_container_get_latest getLatestAt
  rw [h]

theorem getLatestAt_ok_lookup {app : SafeApp} {xn : XorNameT} {v : Nat}
    {m : NrsMap} (h : getLatestAt app xn = .ok (v, m)) :
    ∃ es, lookupStore app (xn, NRS_MAP_TYPE_TAG) = some es ∧ es.length = v := by
  unfold getLatestAt get_latest_seq_append_only_data at h
  cases hl : lookupStore app (xn, NRS_MAP_TYPE_TAG) with
  | none => rw [hl] at h; simp at h
  | some es =>
    rw [hl] at h
    cases es with
    | nil =>
      simp only [Except.ok.injEq, Prod.mk.injEq] at h
      exact ⟨[], rfl, h.1⟩
    | cons e es' =>
      refine ⟨e :: es', rfl, ?_⟩
      have h' : (match deserializeNrsMap (lastEntry e es').2 with
          | none => (Except.error (Error.ContentError msgCorrupt) :
              ResultReturn (Nat × NrsMap))
          | some nrs_map => Except.ok ((e :: es').length, nrs_map)) =
          Except.ok (v, m) := h
      cases hd : deserializeNrsMap (lastEntry e es').2 with
      | none => rw [hd] at h'; simp at h'
      | some mm =>
        rw [hd] at h'
        simp only [Except.ok.injEq, Prod.mk.injEq] at h'
        exact h'.1

theorem lookupStore_updateStore_self :
    ∀ (app : SafeApp) (key : XorNameT × Nat) (v : List (RStr × RStr)),
      lookupStore (updateStore app key v) key = some v := by
  intro app key v
  induction app with
  | nil => simp [updateStore, lookupStore]
  | cons kv t ih =>
    obtain ⟨k, v0⟩ := kv
    by_cases hk : k = key
    · simp [updateStore, lookupStore, hk]
    · simp [updateStore, lookupStore, hk, ih]

theorem append_at_next_version {app : SafeApp} {xn : XorNameT} {tag : Nat}
    {es : List (RStr × RStr)} (hes : lookupStore app (xn, tag) = some es)
    (data : NrsMapRawData) :
    append_seq_append_only_data app data (es.length + 1) xn tag =
      .ok (updateStore app (xn, tag) (es ++ data)) := by
  unfold append_seq_append_only_data
  rw [hes]
  simp

theorem add_characterization {s : Safe} {name : RStr} {dest : Option RStr}
    {deflt : Bool} {now : RStr} {enc : XorUrlEncoder} {u : RStr}
    {v : Nat} {m : NrsMap} {link : RStr} {m2 : NrsMap}
    {es : List (RStr × RStr)}
    (hp : parse_url (sanitised_nrs_url name) = .ok enc)
    (htag : enc.type_tag = NRS_MAP_TYPE_TAG)
    (hts : enc.to_string [] = .ok u)
    (hg : getLatestAt s.safe_app enc.xorname = .ok (v, m))
    (hu : nrs_map_update_or_create_data m name dest deflt = .ok (link, m2))
    (hes : lookupStore s.safe_app (enc.xorname, NRS_MAP_TYPE_TAG) = some es)
    (hlen : es.length = v) (dry : Bool) :
    nrs_map_container_add s name dest deflt dry now =
      (.ok (v + 1, u, [(name, (CONTENT_ADDED_SIGN, link))], m2),
        if dry then s
        else { s with safe_app := (updateStore s.safe_app
          (enc.xorname, NRS_MAP_TYPE_TAG)
          (es ++ [(now, serializeNrsMap m2)])) }) := by
  have hpu : parse_url u = .ok enc :=
    parse_url_of_from_url (from_url_to_string (parse_url_wf hp) hts)
  have hgl : nrs_map_container_get_latest s u = .ok (v, m) := by
    rw [get_latest_eq_getLatestAt hpu]; exact hg
  have happ : append_seq_append_only_data s.safe_app
      [(now, serializeNrsMap m2)] (v + 1) enc.xorname enc.type_tag =
      .ok (updateStore s.safe_app (enc.xorname, NRS_MAP_TYPE_TAG)
        (es ++ [(now, serializeNrsMap m2)])) := by
    rw [htag, ← hlen]
    exact append_at_next_version hes _
  cases dry with
  | true =>
    simp only [nrs_map_container_add, hp, hts, hgl, hu,
      gen_nrs_map_raw_data, if_true]
  | false =>
    simp only [nrs_map_container_add, hp, hts, hgl, hu,
      gen_nrs_map_raw_data, happ, Bool.false_eq_true, if_false]

theorem remove_characterization {s : Safe} {name : RStr} {now : RStr}
    {enc : XorUrlEncoder} {u : RStr} {v : Nat} {m : NrsMap} {link : RStr}
    {m2 : NrsMap} {es : List (RStr × RStr)}
    (hp : parse_url (sanitised_nrs_url name) = .ok enc)
    (htag : enc.type_tag = NRS_MAP_TYPE_TAG)
    (hts : enc.to_string [] = .ok u)
    (hg : getLatestAt s.safe_app enc.xorname = .ok (v, m))
    (hr : nrs_map_remove_subname m name = .ok (link, m2))
    (hes : lookupStore s.safe_app (enc.xorname, NRS_MAP_TYPE_TAG) = some es)
    (hlen : es.length = v) (dry : Bool) :
    nrs_map_container_remove s name dry now =
      (.ok (v + 1, u, [(name, (CONTENT_DELETED_SIGN, link))], m2),
        if dry then s
        else { s with safe_app := (updateStore s.safe_app
          (enc.xorname, NRS_MAP_TYPE_TAG)
          (es ++ [(now, serializeNrsMap m2)])) }) := by
  have hpu : parse_url u = .ok enc :=
    parse_url_of_from_url (from_url_to_string (parse_url_wf hp) hts)
  have hgl : nrs_map_container_get_latest s u = .ok (v, m) := by
    rw [get_latest_eq_getLatestAt hpu]; exact hg
  have happ : append_seq_append_only_data s.safe_app
      [(now, serializeNrsMap m2)] (v + 1) enc.xorname enc.type_tag =
      .ok (updateStore s.safe_app (enc.xorname, NRS_MAP_TYPE_TAG)
        (es ++ [(now, serializeNrsMap m2)])) := by
    rw [htag, ← hlen]
    exact append_at_next_version hes _
  cases dry with
  | true =>
    simp only [nrs_map_container_remove, hp, hts, hgl, hr,
      gen_nrs_map_raw_data, if_true]
  | false =>
    simp only [nrs_map_container_remove, hp, hts, hgl, hr,
      gen_nrs_map_raw_data, happ, Bool.false_eq_true, if_false]

theorem remove_fail_characterization {s : Safe} {name : RStr} {now : RStr}
    {enc : XorUrlEncoder} {u : RStr} {v : Nat} {m : NrsMap} {e : Error}
    (hp : parse_url (sanitised_nrs_url name) = .ok enc)
    (hts : enc.to_string [] = .ok u)
    (hg : getLatestAt s.safe_app enc.xorname = .ok (v, m))
    (hr : nrs_map_remove_subname m name = .error e) (dry : Bool) :
    nrs_map_container_remove s name dry now = (.error e, s) := by
  have hpu : parse_url u = .ok enc :=
    parse_url_of_from_url (from_url_to_string (parse_url_wf hp) hts)
  have hgl : nrs_map_container_get_latest s u = .ok (v, m) := by
    rw [get_latest_eq_getLatestAt hpu]; exact hg
  simp only [nrs_map_container_remove, hp, hts, hgl, hr]

theorem create_fails_when_latest_ok {s : Safe} {name : RStr}
    {dest : Option RStr} {deflt dry : Bool} {now : RStr}
    {p : Nat × NrsMap}
    (hg : nrs_map_container_get_latest s (sanitised_nrs_url name) = .ok p) :
    nrs_map_container_create s name dest deflt dry now =
      (.error (.ContentError msgNameExists), s) := by
  simp only [nrs_map_container_create, hg]

theorem splitLast_of_ne_nil :
    ∀ {l : List α}, l ≠ [] → ∃ p, splitLast l = some p := by
  intro l
  induction l with
  | nil => intro h; exact absurd rfl h
  | cons a t ih =>
    intro _
    match t with
    | [] => exact ⟨([], a), rfl⟩
    | b :: t' =>
      obtain ⟨⟨i, x⟩, hp⟩ := ih (by simp)
      exact ⟨(a :: i, x), by simp only [splitLast, hp]⟩

theorem get_subnames_never_fails (url : RStr) :
    ∃ subs host path, get_subnames_host_and_path url = .ok (subs, host, path) := by
  unfold get_subnames_host_and_path get_subnames_host_and_path.get_subnames_core
  obtain ⟨⟨subs, host⟩, hp⟩ :=
    splitLast_of_ne_nil (splitOnChar_ne_nil '.' _)
  rw [hp]
  exact ⟨subs, host, _, rfl⟩

theorem update_or_create_ok (m : NrsMap) (name : RStr) (dest : Option RStr)
    (deflt : Bool) : ∃ link m2,
      nrs_map_update_or_create_data m name dest deflt = .ok (link, m2) := by
  unfold nrs_map_update_or_create_data
  obtain ⟨subs, host, path, hs⟩ := get_subnames_never_fails (sanitised_nrs_url name)
  rw [hs]
  by_cases h0 : subs = []
  · cases deflt <;> simp [h0]
  · cases deflt <;> simp [h0]

theorem lastEntry_append (x : α) :
    ∀ (es : List α) (e : α), lastEntry e (es ++ [x]) = x := by
  intro es
  induction es with
  | nil => intro e; rfl
  | cons a t ih =>
    intro e
    simp only [List.cons_append, List.append_eq, lastEntry, ih]

theorem store_get_of_append {app : SafeApp} {xn : XorNameT} {tag : Nat}
    {es : List (RStr × RStr)} {x : RStr × RStr}
    (hl : lookupStore app (xn, tag) = some (es ++ [x])) :
    get_latest_seq_append_only_data app xn tag = .ok (es.length + 1, x) := by
  unfold get_latest_seq_append_only_data
  rw [hl]
  cases es with
  | nil => simp [lastEntry]
  | cons a t =>
    simp [List.length_append, lastEntry_append]

theorem getLatestAt_after_write {app : SafeApp} {xn : XorNameT}
    {es : List (RStr × RStr)} {t : RStr} {m2 : NrsMap} :
    getLatestAt (updateStore app (xn, NRS_MAP_TYPE_TAG)
      (es ++ [(t, serializeNrsMap m2)])) xn = .ok (es.length + 1, m2) := by
  unfold getLatestAt
  rw [store_get_of_append (lookupStore_updateStore_self app _ _)]
  simp only [deserializeNrsMap_serializeNrsMap]

theorem append_ok_inversion {app : SafeApp} {data : NrsMapRawData}
    {ver : Nat} {xn : XorNameT} {tag : Nat} {app2 : SafeApp}
    (h : append_seq_append_only_data app data ver xn tag = .ok app2) :
    ∃ es, lookupStore app (xn, tag) = some es ∧ ver = es.length + 1 ∧
      app2 = updateStore app (xn, tag) (es ++ data) := by
  unfold append_seq_append_only_data at h
  cases hl : lookupStore app (xn, tag) with
  | none => rw [hl] at h; simp at h
  | some es =>
    rw [hl] at h
    have h' : (if ver = es.length + 1 then
        (Except.ok (updateStore app (xn, tag) (es ++ data)) :
          ResultReturn SafeApp)
      else .error (.NetDataError msgVersionConflict)) = .ok app2 := h
    by_cases hv : ver = es.length + 1
    · rw [if_pos hv] at h'
      simp only [Except.ok.injEq] at h'
      exact ⟨es, rfl, hv, h'.symm⟩
    · rw [if_neg hv] at h'
      simp at h'

theorem add_ok_inversion {s : Safe} {name : RStr} {dest : Option RStr}
    {deflt : Bool} {now : RStr} {r : Nat × XorUrl × ProcessedEntries × NrsMap}
    {s' : Safe}
    (h : nrs_map_container_add s name dest deflt false now = (.ok r, s')) :
    ∃ enc v m link m2,
      parse_url (sanitised_nrs_url name) = .ok enc ∧
      getLatestAt s.safe_app enc.xorname = .ok (v, m) ∧
      nrs_map_update_or_create_data m name dest deflt = .ok (link, m2) ∧
      r = (v + 1, xorurl_encode enc.xorname enc.type_tag enc.data_type
        enc.content_type enc.path enc.sub_names,
        [(name, (CONTENT_ADDED_SIGN, link))], m2) ∧
      append_seq_append_only_data s.safe_app [(now, serializeNrsMap m2)]
        (v + 1) enc.xorname enc.type_tag = .ok s'.safe_app ∧
      s'.xorurl_base = s.xorurl_base := by
  unfold nrs_map_container_add at h
  split at h
  · simp at h
  · rename_i enc hp
    split at h
    · rename_i e hts
      simp [XorUrlEncoder.to_string] at hts
    · rename_i u hts
      have hpu : parse_url u = .ok enc :=
        parse_url_of_from_url (from_url_to_string (parse_url_wf hp) hts)
      simp only [XorUrlEncoder.to_string, Except.ok.injEq] at hts
      rw [get_latest_eq_getLatestAt hpu] at h
      split at h
      · simp at h
      · rename_i version nrs_map hg
        split at h
        · simp at h
        · rename_i link m2 hu
          split at h
          · rename_i e hgen
            simp [gen_nrs_map_raw_data] at hgen
          · rename_i raw hgen
            simp only [gen_nrs_map_raw_data, Except.ok.injEq] at hgen
            subst hgen
            rw [if_neg (by simp)] at h
            split at h
            · simp at h
            · rename_i app2 happ
              simp only [Prod.mk.injEq, Except.ok.injEq] at h
              obtain ⟨hr, hs'⟩ := h
              subst hts
              refine ⟨enc, version, nrs_map, link, m2, hp, hg, hu,
                hr.symm, ?_, ?_⟩
              · rw [← hs']
                exact happ
              · rw [← hs']

theorem remove_ok_inversion {s : Safe} {name : RStr} {now : RStr}
    {r : Nat × XorUrl × ProcessedEntries × NrsMap} {s' : Safe}
    (h : nrs_map_container_remove s name false now = (.ok r, s')) :
    ∃ enc v m link m2,
      parse_url (sanitised_nrs_url name) = .ok enc ∧
      getLatestAt s.safe_app enc.xorname = .ok (v, m) ∧
      nrs_map_remove_subname m name = .ok (link, m2) ∧
      r = (v + 1, xorurl_encode enc.xorname enc.type_tag enc.data_type
        enc.content_type enc.path enc.sub_names,
        [(name, (CONTENT_DELETED_SIGN, link))], m2) ∧
      append_seq_append_only_data s.safe_app [(now, serializeNrsMap m2)]
        (v + 1) enc.xorname enc.type_tag = .ok s'.safe_app ∧
      s'.xorurl_base = s.xorurl_base := by
  unfold nrs_map_container_remove at h
  split at h
  · simp at h
  · rename_i enc hp
    split at h
    · rename_i e hts
      simp [XorUrlEncoder.to_string] at hts
    · rename_i u hts
      have hpu : parse_url u = .ok enc :=
        parse_url_of_from_url (from_url_to_string (parse_url_wf hp) hts)
      simp only [XorUrlEncoder.to_string, Except.ok.injEq] at hts
      rw [get_latest_eq_getLatestAt hpu] at h
      split at h
      · simp at h
      · rename_i version nrs_map hg
        split at h
        · simp at h
        · rename_i link m2 hr
          split at h
          · rename_i e hgen
            simp [gen_nrs_map_raw_data] at hgen
          · rename_i raw hgen
            simp only [gen_nrs_map_raw_data, Except.ok.injEq] at hgen
            subst hgen
            rw [if_neg (by simp)] at h
            split at h
            · simp at h
            · rename_i app2 happ
              simp only [Prod.mk.injEq, Except.ok.injEq] at h
              obtain ⟨hres, hs'⟩ := h
              subst hts
              refine ⟨enc, version, nrs_map, link, m2, hp, hg, hr,
                hres.symm, ?_, ?_⟩
              · rw [← hs']
                exact happ
              · rw [← hs']

theorem create_ok_inversion {s : Safe} {name : RStr} {dest : Option RStr}
    {deflt : Bool} {now : RStr} {url : XorUrl} {pe : ProcessedEntries}
    {m : NrsMap} {s' : Safe}
    (h : nrs_map_container_create s name dest deflt false now =
      (.ok (url, pe, m), s')) :
    ∃ e link subs host path,
      nrs_map_container_get_latest s (sanitised_nrs_url name) = .error e ∧
      nrs_map_update_or_create_data emptyNrsMap name dest deflt =
        .ok (link, m) ∧
      pe = [(name, (CONTENT_ADDED_SIGN, link))] ∧
      get_subnames_host_and_path (sanitised_nrs_url name) =
        .ok (subs, host, path) ∧
      lookupStore s.safe_app (sha3_256 (strBytes host), NRS_MAP_TYPE_TAG) =
        none ∧
      url = xorurl_encode (sha3_256 (strBytes host)) NRS_MAP_TYPE_TAG
        .PublishedSeqAppendOnlyData .NrsMapContainer [] [] ∧
      s'.safe_app = updateStore s.safe_app
        (sha3_256 (strBytes host), NRS_MAP_TYPE_TAG)
        [(now, serializeNrsMap m)] := by
  unfold nrs_map_container_create at h
  cases hg : nrs_map_container_get_latest s (sanitised_nrs_url name) with
  | ok p => rw [hg] at h; simp at h
  | error e =>
    rw [hg] at h
    have h' : nrs_map_container_create.nrs_map_container_create_core s name
        dest deflt false now = (.ok (url, pe, m), s') := h
    unfold nrs_map_container_create.nrs_map_container_create_core at h'
    split at h'
    · simp at h'
    · rename_i link m0 hu
      split at h'
      · rename_i e2 hgen
        simp [gen_nrs_map_raw_data] at hgen
      · rename_i raw hgen
        simp only [gen_nrs_map_raw_data, Except.ok.injEq] at hgen
        subst hgen
        rw [if_neg (by simp)] at h'
        split at h'
        · simp at h'
        · rename_i subs host path hsub
          simp only [xorname_from_nrs_string] at h'
          split at h'
          · simp at h'
          · rename_i xn app2 hput
            unfold put_seq_append_only_data at hput
            have hput' : (match lookupStore s.safe_app
                (sha3_256 (strBytes host), NRS_MAP_TYPE_TAG) with
              | some _ => (Except.error (Error.NetDataError msgPutExists) :
                  ResultReturn (XorNameT × SafeApp))
              | none => Except.ok (sha3_256 (strBytes host),
                  updateStore s.safe_app
                    (sha3_256 (strBytes host), NRS_MAP_TYPE_TAG)
                    [(now, serializeNrsMap m0)])) = Except.ok (xn, app2) := hput
            cases hl : lookupStore s.safe_app
                (sha3_256 (strBytes host), NRS_MAP_TYPE_TAG) with
            | some es => rw [hl] at hput'; simp at hput'
            | none =>
              rw [hl] at hput'
              simp only [Except.ok.injEq, Prod.mk.injEq] at hput'
              obtain ⟨hxn, happ2⟩ := hput'
              simp only [Prod.mk.injEq, Except.ok.injEq] at h'
              obtain ⟨⟨hurl, hpe, hm⟩, hs'⟩ := h'
              subst hm
              refine ⟨e, link, subs, host, path, rfl, hu, hpe.symm, hsub,
                hl, ?_, ?_⟩
              · rw [← hurl, ← hxn]
              · rw [← hs', ← happ2]

theorem create_dry_ok_inversion {s : Safe} {name : RStr} {dest : Option RStr}
    {deflt : Bool} {now : RStr} {url : XorUrl} {pe : ProcessedEntries}
    {m : NrsMap} {s' : Safe}
    (h : nrs_map_container_create s name dest deflt true now =
      (.ok (url, pe, m), s')) :
    url = [] ∧ s' = s ∧
    ∃ e link, nrs_map_container_get_latest s (sanitised_nrs_url name) =
        .error e ∧
      nrs_map_update_or_create_data emptyNrsMap name dest deflt =
        .ok (link, m) ∧
      pe = [(name, (CONTENT_ADDED_SIGN, link))] := by
  unfold nrs_map_container_create at h
  cases hg : nrs_map_container_get_latest s (sanitised_nrs_url name) with
  | ok p => rw [hg] at h; simp at h
  | error e =>
    rw [hg] at h
    have h' : nrs_map_container_create.nrs_map_container_create_core s name
        dest deflt true now = (.ok (url, pe, m), s') := h
    unfold nrs_map_container_create.nrs_map_container_create_core at h'
    split at h'
    · simp at h'
    · rename_i link m0 hu
      split at h'
      · rename_i e2 hgen
        simp [gen_nrs_map_raw_data] at hgen
      · rename_i raw hgen
        rw [if_pos rfl] at h'
        simp only [Prod.mk.injEq, Except.ok.injEq] at h'
        obtain ⟨⟨hurl, hpe, hm⟩, hs'⟩ := h'
        subst hm
        exact ⟨hurl.symm, hs'.symm, e, link, rfl, hu, hpe.symm⟩

theorem getLatestAt_of_ok_corrupt {app : SafeApp} {xn : XorNameT} {ver : Nat}
    {k value : RStr}
    (h : get_latest_seq_append_only_data app xn NRS_MAP_TYPE_TAG =
      .ok (ver, (k, value)))
    (hd : deserializeNrsMap value = none) :
    getLatestAt app xn = .error (.ContentError msgCorrupt) := by
  unfold getLatestAt
  rw [h]
  simp only [hd]

theorem getLatestAt_of_ok_good {app : SafeApp} {xn : XorNameT} {ver : Nat}
    {k value : RStr} {mm : NrsMap}
    (h : get_latest_seq_append_only_data app xn NRS_MAP_TYPE_TAG =
      .ok (ver, (k, value)))
    (hd : deserializeNrsMap value = some mm) :
    getLatestAt app xn = .ok (ver, mm) := by
  unfold getLatestAt
  rw [h]
  simp only [hd]

theorem getLatestAt_of_empty {app : SafeApp} {xn : XorNameT} {msg : RStr}
    (h : get_latest_seq_append_only_data app xn NRS_MAP_TYPE_TAG =
      .error (.EmptyContent msg)) :
    getLatestAt app xn = .ok (0, emptyNrsMap) := by
  unfold getLatestAt
  rw [h]

theorem getLatestAt_of_notfound {app : SafeApp} {xn : XorNameT} {msg : RStr}
    (h : get_latest_seq_append_only_data app xn NRS_MAP_TYPE_TAG =
      .error (.ContentNotFound msg)) :
    getLatestAt app xn = .error (.ContentNotFound ERROR_MSG_NO_NRS_MAP_FOUND) := by
  unfold getLatestAt
  rw [h]

theorem store_get_trichotomy (app : SafeApp) (xn : XorNameT) (tag : Nat) :
    (∃ ver entry, get_latest_seq_append_only_data app xn tag =
      .ok (ver, entry)) ∨
    (∃ msg, get_latest_seq_append_only_data app xn tag =
      .error (.EmptyContent msg)) ∨
    (∃ msg, get_latest_seq_append_only_data app xn tag =
      .error (.ContentNotFound msg)) := by
  unfold get_latest_seq_append_only_data
  cases hl : lookupStore app (xn, tag) with
  | none => right; right; exact ⟨msgDataNotFound, rfl⟩
  | some es =>
    cases es with
    | nil => right; left; exact ⟨msgDataEmpty, rfl⟩
    | cons e es' => left; exact ⟨(e :: es').length, lastEntry e es', rfl⟩

theorem add_fails_when_get_latest_fails {s : Safe} {name : RStr}
    {dest : Option RStr} {deflt dry : Bool} {now : RStr}
    {enc : XorUrlEncoder} {e : Error}
    (hp : parse_url (sanitised_nrs_url name) = .ok enc)
    (hgl : getLatestAt s.safe_app enc.xorname = .error e) :
    nrs_map_container_add s name dest deflt dry now = (.error e, s) := by
  have hpu : parse_url (xorurl_encode enc.xorname enc.type_tag enc.data_type
      enc.content_type enc.path enc.sub_names) = .ok enc :=
    parse_url_of_from_url (from_url_to_string (parse_url_wf hp) rfl)
  have hgl2 : nrs_map_container_get_latest s (xorurl_encode enc.xorname
      enc.type_tag enc.data_type enc.content_type enc.path enc.sub_names) =
      .error e := by
    rw [get_latest_eq_getLatestAt hpu]
    exact hgl
  simp only [nrs_map_container_add, hp, XorUrlEncoder.to_string, hgl2]

theorem remove_fails_when_get_latest_fails {s : Safe} {name : RStr}
    {dry : Bool} {now : RStr} {enc : XorUrlEncoder} {e : Error}
    (hp : parse_url (sanitised_nrs_url name) = .ok enc)
    (hgl : getLatestAt s.safe_app enc.xorname = .error e) :
    nrs_map_container_remove s name dry now = (.error e, s) := by
  have hpu : parse_url (xorurl_encode enc.xorname enc.type_tag enc.data_type
      enc.content_type enc.path enc.sub_names) = .ok enc :=
    parse_url_of_from_url (from_url_to_string (parse_url_wf hp) rfl)
  have hgl2 : nrs_map_container_get_latest s (xorurl_encode enc.xorname
      enc.type_tag enc.data_type enc.content_type enc.path enc.sub_names) =
      .error e := by
    rw [get_latest_eq_getLatestAt hpu]
    exact hgl
  simp only [nrs_map_container_remove, hp, XorUrlEncoder.to_string, hgl2]

theorem create_core_no_name_exists_error (s : Safe) (name : RStr)
    (dest : Option RStr) (deflt dry : Bool) (now : RStr) :
    (nrs_map_container_create.nrs_map_container_create_core s name dest deflt
      dry now).1 ≠ .error (.ContentError msgNameExists) := by
  unfold nrs_map_container_create.nrs_map_container_create_core
  obtain ⟨link, m2, hu⟩ := update_or_create_ok emptyNrsMap name dest deflt
  simp only [hu, gen_nrs_map_raw_data]
  cases dry with
  | true => simp
  | false =>
    simp only [Bool.false_eq_true, if_false]
    obtain ⟨subs, host, path, hsub⟩ :=
      get_subnames_never_fails (sanitised_nrs_url name)
    simp only [hsub, xorname_from_nrs_string, put_seq_append_only_data]
    cases hl : lookupStore s.safe_app
        (sha3_256 (strBytes host), NRS_MAP_TYPE_TAG) with
    | some es => simp
    | none => simp

/-- Example public name used by the concrete witnesses. -/
def exName : RStr := ("example").data

/-- Example name with one subname. -/
def exSubName : RStr := ("sub.example").data

/-- The NRS-style URL of `exName`. -/
def exUrl : RStr := ("safe://example").data

/-- An NRS-style URL with a subname and a path. -/
def exUrl2 : RStr := ("safe://sub.example/p").data

/-- The derived container address of `exName`. -/
def exAddr : XorNameT := sha3_256 (strBytes exName)

/-- The fallback locator the resolver derives for `exUrl`. -/
def exEnc : XorUrlEncoder :=
  ⟨exAddr, NRS_MAP_TYPE_TAG, .PublishedSeqAppendOnlyData, .NrsMapContainer,
    [], []⟩

/-- Example destination link. -/
def exDest : RStr := ("safe://destination").data

/-- Example timestamp key. -/
def exTs : RStr := ("1577836800").data

/-- A `Safe` handle over an empty store. -/
def safeEmpty : Safe := ⟨[], []⟩

/-- A `Safe` handle whose store holds an existing container for `exName`
with no entry (the store's EmptyContent state). -/
def safeEmptyContainer : Safe := ⟨[((exAddr, NRS_MAP_TYPE_TAG), [])], []⟩

/-- C1: fetching the latest resolution map sees exactly one of three store
outcomes — a value (deserialized, with the corrupt-map `ContentError` when
deserialization fails), an existing-but-empty container (normalized to
version 0 and a fresh empty map, not an error), or a missing container
(failing with `ContentNotFound` carrying the specific message
`ERROR_MSG_NO_NRS_MAP_FOUND`). -/
theorem claim_c1 {s : Safe} {url : RStr} {enc : XorUrlEncoder}
    (hp : parse_url url = .ok enc) :
    ((∃ ver entry, get_latest_seq_append_only_data s.safe_app enc.xorname
        NRS_MAP_TYPE_TAG = .ok (ver, entry)) ∨
      (∃ msg, get_latest_seq_append_only_data s.safe_app enc.xorname
        NRS_MAP_TYPE_TAG = .error (.EmptyContent msg)) ∨
      (∃ msg, get_latest_seq_append_only_data s.safe_app enc.xorname
        NRS_MAP_TYPE_TAG = .error (.ContentNotFound msg))) ∧
    (∀ ver k value, get_latest_seq_append_only_data s.safe_app enc.xorname
        NRS_MAP_TYPE_TAG = .ok (ver, (k, value)) →
      (deserializeNrsMap value = none →
        nrs_map_container_get_latest s url =
          .error (.ContentError msgCorrupt)) ∧
      (∀ mm, deserializeNrsMap value = some mm →
        nrs_map_container_get_latest s url = .ok (ver, mm))) ∧
    (∀ msg, get_latest_seq_append_only_data s.safe_app enc.xorname
        NRS_MAP_TYPE_TAG = .error (.EmptyContent msg) →
      nrs_map_container_get_latest s url = .ok (0, emptyNrsMap)) ∧
    (∀ msg, get_latest_seq_append_only_data s.safe_app enc.xorname
        NRS_MAP_TYPE_TAG = .error (.ContentNotFound msg) →
      nrs_map_container_get_latest s url =
        .error (.ContentNotFound ERROR_MSG_NO_NRS_MAP_FOUND)) := by
  refine ⟨store_get_trichotomy s.safe_app enc.xorname NRS_MAP_TYPE_TAG,
    ?_, ?_, ?_⟩
  · intro ver k value hstore
    constructor
    · intro hd
      rw [get_latest_eq_getLatestAt hp]
      exact getLatestAt_of_ok_corrupt hstore hd
    · intro mm hd
      rw [get_latest_eq_getLatestAt hp]
      exact getLatestAt_of_ok_good hstore hd
  · intro msg hstore
    rw [get_latest_eq_getLatestAt hp]
    exact getLatestAt_of_empty hstore
  · intro msg hstore
    rw [get_latest_eq_getLatestAt hp]
    exact getLatestAt_of_notfound hstore

/-- Witness for C1 at the empty store: the container is missing and the
fetch fails with the specific no-NRS-map message. -/
theorem claim_c1_witness :
    parse_url exUrl = .ok exEnc ∧
    get_latest_seq_append_only_data safeEmpty.safe_app exEnc.xorname
      NRS_MAP_TYPE_TAG = .error (.ContentNotFound msgDataNotFound) ∧
    nrs_map_container_get_latest safeEmpty exUrl =
      .error (.ContentNotFound ERROR_MSG_NO_NRS_MAP_FOUND) :=
  ⟨rfl, rfl,
    (claim_c1 (rfl : parse_url exUrl = .ok exEnc)).2.2.2 msgDataNotFound rfl⟩

/-- C3: when structural decoding of the input fails, the resolver returns
the fallback locator — hashed public name as address, the NRS type tag,
versioned append-only data kind, resolution-map content kind, and the
extracted path and subnames; when decoding succeeds, the decoded locator is
returned unchanged. -/
theorem claim_c3 (url : RStr) :
    (∀ enc, from_url url = .ok enc → parse_url url = .ok enc) ∧
    (∀ e subs host path, from_url url = .error e →
      get_subnames_host_and_path url = .ok (subs, host, path) →
      parse_url url = .ok ⟨sha3_256 (strBytes host), NRS_MAP_TYPE_TAG,
        .PublishedSeqAppendOnlyData, .NrsMapContainer, path, subs⟩) := by
  constructor
  · intro enc h
    exact parse_url_of_from_url h
  · intro e subs host path hf hsub
    simp only [parse_url, hf, hsub, xorname_from_nrs_string]

/-- Witness for C3 on a URL with a subname and a path. -/
theorem claim_c3_witness :
    from_url exUrl2 = .error (.InvalidXorUrl msgBadHeader) ∧
    get_subnames_host_and_path exUrl2 =
      .ok ([("sub").data], ("example").data, ("/p").data) ∧
    parse_url exUrl2 = .ok ⟨sha3_256 (strBytes (("example").data)),
      NRS_MAP_TYPE_TAG, .PublishedSeqAppendOnlyData, .NrsMapContainer,
      ("/p").data, [("sub").data]⟩ :=
  ⟨rfl, rfl, (claim_c3 exUrl2).2 _ _ _ _ rfl rfl⟩

/-- C7 (code bug evidenced at a failing input): `sanitised_nrs_url` uses
`str::replace`, which strips every occurrence of `"safe://"` anywhere in
the name, not only a leading prefix — on `"bad.safe://name"` the interior
occurrence is removed, contradicting the spec's leading-only normalization
(the source's own FIXME comment marks the line as a known hack). -/
theorem claim_c7 :
    sanitised_nrs_url (("bad.safe://name").data) =
      ("safe://bad.name").data ∧
    sanitised_nrs_url (("bad.safe://name").data) ≠
      ("safe://bad.safe://name").data := by
  constructor
  · rfl
  · decide

/-- C8: the payload written by `gen_nrs_map_raw_data` — the serialized map
as the entry value under the timestamp key — deserializes back to the very
same map, both directly and through a store fetch of a container holding
that payload (which reports it as version 1). -/
theorem claim_c8 (m : NrsMap) (now : RStr) :
    gen_nrs_map_raw_data m now = .ok [(now, serializeNrsMap m)] ∧
    deserializeNrsMap (serializeNrsMap m) = some m ∧
    ∀ (app : SafeApp) (xn : XorNameT),
      getLatestAt (updateStore app (xn, NRS_MAP_TYPE_TAG)
        [(now, serializeNrsMap m)]) xn = .ok (1, m) := by
  refine ⟨rfl, deserializeNrsMap_serializeNrsMap m, ?_⟩
  intro app xn
  have h := @getLatestAt_after_write app xn [] now m
  simpa using h

/-- C9: the address the resolver derives on the fallback path is a pure
function of the normalized public name: two inputs that both fail
structural decoding and normalize to the same public name resolve to the
same hashed address. -/
theorem claim_c9 {u1 u2 : RStr} {e1 e2 : Error} {s1 s2 : List RStr}
    {host p1 p2 : RStr}
    (hf1 : from_url u1 = .error e1) (hf2 : from_url u2 = .error e2)
    (hs1 : get_subnames_host_and_path u1 = .ok (s1, host, p1))
    (hs2 : get_subnames_host_and_path u2 = .ok (s2, host, p2)) :
    ∃ enc1 enc2, parse_url u1 = .ok enc1 ∧ parse_url u2 = .ok enc2 ∧
      enc1.xorname = enc2.xorname ∧
      enc1.xorname = sha3_256 (strBytes host) := by
  refine ⟨⟨sha3_256 (strBytes host), NRS_MAP_TYPE_TAG,
      .PublishedSeqAppendOnlyData, .NrsMapContainer, p1, s1⟩,
    ⟨sha3_256 (strBytes host), NRS_MAP_TYPE_TAG,
      .PublishedSeqAppendOnlyData, .NrsMapContainer, p2, s2⟩,
    ?_, ?_, rfl, rfl⟩
  · simp only [parse_url, hf1, hs1, xorname_from_nrs_string]
  · simp only [parse_url, hf2, hs2, xorname_from_nrs_string]

/-- Witness for C9: two different inputs with the same public name resolve
to the same address. -/
theorem claim_c9_witness :
    from_url exUrl = .error (.InvalidXorUrl msgBadHeader) ∧
    from_url exUrl2 = .error (.InvalidXorUrl msgBadHeader) ∧
    ∃ enc1 enc2, parse_url exUrl = .ok enc1 ∧ parse_url exUrl2 = .ok enc2 ∧
      enc1.xorname = enc2.xorname ∧
      enc1.xorname = sha3_256 (strBytes (("example").data)) :=
  ⟨rfl, rfl, claim_c9 rfl rfl rfl rfl⟩

/-- C10: a Remove whose subname lookup fails returns that error with the
store state (and hence the durable version) unchanged: the error propagates
before any append is attempted. -/
theorem claim_c10 {s : Safe} {name : RStr} {now : RStr}
    {enc : XorUrlEncoder} {v : Nat} {m : NrsMap} {e : Error}
    (hp : parse_url (sanitised_nrs_url name) = .ok enc)
    (hg : getLatestAt s.safe_app enc.xorname = .ok (v, m))
    (hr : nrs_map_remove_subname m name = .error e) :
    nrs_map_container_remove s name false now = (.error e, s) :=
  remove_fail_characterization hp rfl hg hr false

/-- Witness for C10: removing an absent subname from the empty-container
state fails and leaves the store untouched. -/
theorem claim_c10_witness :
    nrs_map_remove_subname emptyNrsMap exSubName =
      .error (.ContentError msgNoSubname) ∧
    nrs_map_container_remove safeEmptyContainer exSubName false exTs =
      (.error (.ContentError msgNoSubname), safeEmptyContainer) :=
  ⟨rfl, claim_c10 rfl rfl rfl⟩

/-- Counterexample to C2 as stated: on a store whose container for the name
exists but is empty, fetching the latest map reports the absent state —
version 0 with a fresh empty map, never written — yet Create still fails
with the AlreadyExists error (`ContentError` "NRS name already exists…"),
because the code gates Create on `is_ok()` of the fetch rather than on the
existence of a written map. -/
theorem claim_c2_counterexample :
    nrs_map_container_get_latest safeEmptyContainer
      (sanitised_nrs_url exName) = .ok (0, emptyNrsMap) ∧
    (nrs_map_container_create safeEmptyContainer exName (some exDest) true
      false exTs).1 = .error (.ContentError msgNameExists) := by
  constructor
  · rfl
  · rfl

/-- C2 (amended): Create fails with the AlreadyExists error exactly when
fetching the latest map for the name succeeds — which includes the
existing-but-empty container state normalized to version 0, even though no
map was ever written there — and Add on a root whose container does not
exist fails with `ContentNotFound` carrying the specific no-NRS-map
message. -/
theorem claim_c2_amended (s : Safe) (name : RStr) (dest : Option RStr)
    (deflt dry : Bool) (now : RStr) :
    ((∃ p, nrs_map_container_get_latest s (sanitised_nrs_url name) = .ok p) ↔
      (nrs_map_container_create s name dest deflt dry now).1 =
        .error (.ContentError msgNameExists)) ∧
    (∀ enc msg, parse_url (sanitised_nrs_url name) = .ok enc →
      get_latest_seq_append_only_data s.safe_app enc.xorname
        NRS_MAP_TYPE_TAG = .error (.ContentNotFound msg) →
      nrs_map_container_add s name dest deflt dry now =
        (.error (.ContentNotFound ERROR_MSG_NO_NRS_MAP_FOUND), s)) := by
  constructor
  · constructor
    · rintro ⟨p, hg⟩
      rw [create_fails_when_latest_ok hg]
    · intro hres
      cases hg : nrs_map_container_get_latest s (sanitised_nrs_url name) with
      | ok p => exact ⟨p, rfl⟩
      | error e =>
        exfalso
        unfold nrs_map_container_create at hres
        rw [hg] at hres
        have hres' : (nrs_map_container_create.nrs_map_container_create_core
            s name dest deflt dry now).1 =
            .error (.ContentError msgNameExists) := hres
        exact create_core_no_name_exists_error s name dest deflt dry now hres'
  · intro enc msg hp hstore
    exact add_fails_when_get_latest_fails hp (getLatestAt_of_notfound hstore)

/-- Witness for the amended C2: Create on the empty-container state fails
with AlreadyExists, and Add on a never-created root fails with the
specific NotFound message. -/
theorem claim_c2_amended_witness :
    (nrs_map_container_create safeEmptyContainer exName (some exDest) true
      false exTs).1 = .error (.ContentError msgNameExists) ∧
    nrs_map_container_add safeEmpty exName (some exDest) true false exTs =
      (.error (.ContentNotFound ERROR_MSG_NO_NRS_MAP_FOUND), safeEmpty) :=
  ⟨(claim_c2_amended safeEmptyContainer exName (some exDest) true false
      exTs).1.mp ⟨(0, emptyNrsMap), rfl⟩,
    (claim_c2_amended safeEmpty exName (some exDest) true false exTs).2
      exEnc msgDataNotFound rfl rfl⟩

/-- Expected resulting map of the witness Create/Add calls: root default set
to the opaque destination link. -/
def exMap : NrsMap := ⟨[], .OtherRdf [(FAKE_RDF_PREDICATE_LINK, exDest)]⟩

/-- Expected Processed Entry Record of the witness Create/Add calls. -/
def exPe : ProcessedEntries := [(exName, (CONTENT_ADDED_SIGN, exDest))]

/-- The XOR-URL Create returns for `exName` in non-preview mode. -/
def exCreateUrl : RStr :=
  xorurl_encode exAddr NRS_MAP_TYPE_TAG .PublishedSeqAppendOnlyData
    .NrsMapContainer [] []

/-- The run of a non-preview Create of `exName` over the empty store. -/
def c5run : ResultReturn (XorUrl × ProcessedEntries × NrsMap) × Safe :=
  nrs_map_container_create safeEmpty exName (some exDest) true false exTs

/-- Counterexample to C5 as stated: a successful preview (dry-run) Create
returns the empty string as its locator, which does not decode at all — so
the returned locator does not decode back to the hashed-name address,
contrary to the claim's "including in preview mode". -/
theorem claim_c5_counterexample :
    (nrs_map_container_create safeEmpty exName (some exDest) true true
      exTs).1 = .ok ([], exPe, exMap) ∧
    from_url [] = .error (.InvalidXorUrl msgNoScheme) := by
  constructor
  · rfl
  · rfl

/-- C5 (amended): every successful non-preview Create returns a locator
that decodes back to the hashed public name's address with the
resolution-map type tag; in preview mode the returned locator is the empty
string instead. -/
theorem claim_c5_amended {s : Safe} {name : RStr} {dest : Option RStr}
    {deflt : Bool} {now : RStr} :
    (∀ url pe m s', nrs_map_container_create s name dest deflt false now =
        (.ok (url, pe, m), s') →
      ∃ subs host path,
        get_subnames_host_and_path (sanitised_nrs_url name) =
          .ok (subs, host, path) ∧
        from_url url = .ok ⟨sha3_256 (strBytes host), NRS_MAP_TYPE_TAG,
          .PublishedSeqAppendOnlyData, .NrsMapContainer, [], []⟩) ∧
    (∀ url pe m s', nrs_map_container_create s name dest deflt true now =
        (.ok (url, pe, m), s') → url = []) := by
  constructor
  · intro url pe m s' h
    obtain ⟨e, link, subs, host, path, hg, hu, hpe, hsub, hl, hurl, hs'⟩ :=
      create_ok_inversion h
    refine ⟨subs, host, path, hsub, ?_⟩
    rw [hurl]
    exact from_url_xorurl_encode (sha3_256_length _) (by simp)
      (Or.inl rfl) _ _ _
  · intro url pe m s' h
    exact (create_dry_ok_inversion h).1

/-- Witness for the amended C5: the concrete Create over the empty store
returns a locator that decodes back to the hashed address and tag. -/
theorem claim_c5_amended_witness :
    c5run = (.ok (exCreateUrl, exPe, exMap), c5run.2) ∧
    (∃ subs host path,
      get_subnames_host_and_path (sanitised_nrs_url exName) =
        .ok (subs, host, path) ∧
      from_url exCreateUrl = .ok ⟨sha3_256 (strBytes host),
        NRS_MAP_TYPE_TAG, .PublishedSeqAppendOnlyData, .NrsMapContainer,
        [], []⟩) :=
  ⟨rfl, (@claim_c5_amended safeEmpty exName (some exDest) true exTs).1
    exCreateUrl exPe exMap c5run.2 rfl⟩

theorem create_core_dry {s : Safe} {name : RStr} {dest : Option RStr}
    {deflt : Bool} {now : RStr} {link : RStr} {m2 : NrsMap}
    (hu : nrs_map_update_or_create_data emptyNrsMap name dest deflt =
      .ok (link, m2)) :
    nrs_map_container_create.nrs_map_container_create_core s name dest deflt
      true now =
      (.ok ([], [(name, (CONTENT_ADDED_SIGN, link))], m2), s) := by
  unfold nrs_map_container_create.nrs_map_container_create_core
  simp only [hu, gen_nrs_map_raw_data, if_true]

theorem create_dry_state (s : Safe) (name : RStr) (dest : Option RStr)
    (deflt : Bool) (now : RStr) :
    (nrs_map_container_create s name dest deflt true now).2 = s := by
  cases hg : nrs_map_container_get_latest s (sanitised_nrs_url name) with
  | ok p => rw [create_fails_when_latest_ok hg]
  | error e =>
    unfold nrs_map_container_create
    rw [hg]
    show (nrs_map_container_create.nrs_map_container_create_core s name dest
      deflt true now).2 = s
    obtain ⟨link, m2, hu⟩ := update_or_create_ok emptyNrsMap name dest deflt
    rw [create_core_dry hu]

theorem add_dry_characterization {s : Safe} {name : RStr}
    {dest : Option RStr} {deflt : Bool} {now : RStr} {enc : XorUrlEncoder}
    {v : Nat} {m : NrsMap} {link : RStr} {m2 : NrsMap}
    (hp : parse_url (sanitised_nrs_url name) = .ok enc)
    (hg : getLatestAt s.safe_app enc.xorname = .ok (v, m))
    (hu : nrs_map_update_or_create_data m name dest deflt = .ok (link, m2)) :
    nrs_map_container_add s name dest deflt true now =
      (.ok (v + 1, xorurl_encode enc.xorname enc.type_tag enc.data_type
        enc.content_type enc.path enc.sub_names,
        [(name, (CONTENT_ADDED_SIGN, link))], m2), s) := by
  have hpu : parse_url (xorurl_encode enc.xorname enc.type_tag enc.data_type
      enc.content_type enc.path enc.sub_names) = .ok enc :=
    parse_url_of_from_url (from_url_to_string (parse_url_wf hp) rfl)
  have hgl : nrs_map_container_get_latest s (xorurl_encode enc.xorname
      enc.type_tag enc.data_type enc.content_type enc.path enc.sub_names) =
      .ok (v, m) := by
    rw [get_latest_eq_getLatestAt hpu]
    exact hg
  simp only [nrs_map_container_add, hp, XorUrlEncoder.to_string, hgl, hu,
    gen_nrs_map_raw_data, if_true]

theorem remove_dry_characterization {s : Safe} {name : RStr} {now : RStr}
    {enc : XorUrlEncoder} {v : Nat} {m : NrsMap} {link : RStr} {m2 : NrsMap}
    (hp : parse_url (sanitised_nrs_url name) = .ok enc)
    (hg : getLatestAt s.safe_app enc.xorname = .ok (v, m))
    (hr : nrs_map_remove_subname m name = .ok (link, m2)) :
    nrs_map_container_remove s name true now =
      (.ok (v + 1, xorurl_encode enc.xorname enc.type_tag enc.data_type
        enc.content_type enc.path enc.sub_names,
        [(name, (CONTENT_DELETED_SIGN, link))], m2), s) := by
  have hpu : parse_url (xorurl_encode enc.xorname enc.type_tag enc.data_type
      enc.content_type enc.path enc.sub_names) = .ok enc :=
    parse_url_of_from_url (from_url_to_string (parse_url_wf hp) rfl)
  have hgl : nrs_map_container_get_latest s (xorurl_encode enc.xorname
      enc.type_tag enc.data_type enc.content_type enc.path enc.sub_names) =
      .ok (v, m) := by
    rw [get_latest_eq_getLatestAt hpu]
    exact hg
  simp only [nrs_map_container_remove, hp, XorUrlEncoder.to_string, hgl, hr,
    gen_nrs_map_raw_data, if_true]

theorem add_dry_state (s : Safe) (name : RStr) (dest : Option RStr)
    (deflt : Bool) (now : RStr) :
    (nrs_map_container_add s name dest deflt true now).2 = s := by
  cases hp : parse_url (sanitised_nrs_url name) with
  | error e =>
    simp only [nrs_map_container_add, hp]
  | ok enc =>
    cases hgl : getLatestAt s.safe_app enc.xorname with
    | error e => rw [add_fails_when_get_latest_fails hp hgl]
    | ok p =>
      obtain ⟨v, m⟩ := p
      obtain ⟨link, m2, hu⟩ := update_or_create_ok m name dest deflt
      rw [add_dry_characterization hp hgl hu]

theorem remove_dry_state (s : Safe) (name : RStr) (now : RStr) :
    (nrs_map_container_remove s name true now).2 = s := by
  cases hp : parse_url (sanitised_nrs_url name) with
  | error e =>
    simp only [nrs_map_container_remove, hp]
  | ok enc =>
    cases hgl : getLatestAt s.safe_app enc.xorname with
    | error e => rw [remove_fails_when_get_latest_fails hp hgl]
    | ok p =>
      obtain ⟨v, m⟩ := p
      cases hr : nrs_map_remove_subname m name with
      | error e => rw [remove_fail_characterization hp rfl hgl hr true]
      | ok q =>
        obtain ⟨link, m2⟩ := q
        rw [remove_dry_characterization hp hgl hr]

/-- C6: preview (dry-run) Create/Add/Remove leave the store untouched, and
on the same fetched state produce exactly the Processed Entry Record and
resulting Resolution Map of the non-preview path (for Add and Remove even
the same returned version and XOR-URL) — the only difference is the skipped
store write. -/
theorem claim_c6 (s : Safe) (name : RStr) (dest : Option RStr)
    (deflt : Bool) (now : RStr) :
    ((nrs_map_container_create s name dest deflt true now).2 = s ∧
      (nrs_map_container_add s name dest deflt true now).2 = s ∧
      (nrs_map_container_remove s name true now).2 = s) ∧
    (∀ url pe m s', nrs_map_container_create s name dest deflt false now =
        (.ok (url, pe, m), s') →
      (nrs_map_container_create s name dest deflt true now).1 =
        .ok ([], pe, m)) ∧
    (∀ r s', nrs_map_container_add s name dest deflt false now =
        (.ok r, s') →
      nrs_map_container_add s name dest deflt true now = (.ok r, s)) ∧
    (∀ r s', nrs_map_container_remove s name false now = (.ok r, s') →
      nrs_map_container_remove s name true now = (.ok r, s)) := by
  refine ⟨⟨create_dry_state s name dest deflt now,
    add_dry_state s name dest deflt now, remove_dry_state s name now⟩,
    ?_, ?_, ?_⟩
  · intro url pe m s' h
    obtain ⟨e, link, subs, host, path, hg, hu, hpe, hsub, hl, hurl, hs'⟩ :=
      create_ok_inversion h
    unfold nrs_map_container_create
    rw [hg]
    show (nrs_map_container_create.nrs_map_container_create_core s name dest
      deflt true now).1 = .ok ([], pe, m)
    rw [create_core_dry hu, hpe]
  · intro r s' h
    obtain ⟨enc, v, m, link, m2, hp, hg, hu, hr, happ, hbase⟩ :=
      add_ok_inversion h
    rw [add_dry_characterization hp hg hu, hr]
  · intro r s' h
    obtain ⟨enc, v, m, link, m2, hp, hg, hrs, hr, happ, hbase⟩ :=
      remove_ok_inversion h
    rw [remove_dry_characterization hp hg hrs, hr]

/-- The run of a non-preview Add of `exName` over the empty-container
store. -/
def c6run : ResultReturn (Nat × XorUrl × ProcessedEntries × NrsMap) × Safe :=
  nrs_map_container_add safeEmptyContainer exName (some exDest) true false exTs

/-- Witness for C6: the dry-run Add returns the very tuple of the
non-preview Add while leaving the store unchanged. -/
theorem claim_c6_witness :
    nrs_map_container_add safeEmptyContainer exName (some exDest) true false
      exTs = (.ok (1, exCreateUrl, exPe, exMap), c6run.2) ∧
    nrs_map_container_add safeEmptyContainer exName (some exDest) true true
      exTs = (.ok (1, exCreateUrl, exPe, exMap), safeEmptyContainer) :=
  ⟨rfl, (claim_c6 safeEmptyContainer exName (some exDest) true exTs).2.2.1
    (1, exCreateUrl, exPe, exMap) c6run.2 rfl⟩

/-- C4: a successful non-preview Add or Remove on a public-name root whose
latest fetched version is `v` appends the new map as version `v + 1` (the
post-state fetch reports `v + 1` with exactly the returned map) and returns
`v + 1`, regardless of the `make_default` flag; hence two consecutive
successful calls on the same root return consecutive versions with no
gap. -/
theorem claim_c4 {s : Safe} {name : RStr} {e0 : Error} {subs : List RStr}
    {host path : RStr}
    (hfb : from_url (sanitised_nrs_url name) = .error e0)
    (hs : get_subnames_host_and_path (sanitised_nrs_url name) =
      .ok (subs, host, path)) :
    (∀ dest deflt now ver u pe m2 s',
      nrs_map_container_add s name dest deflt false now =
        (.ok (ver, u, pe, m2), s') →
      ∃ v m, getLatestAt s.safe_app (sha3_256 (strBytes host)) = .ok (v, m) ∧
        ver = v + 1 ∧
        getLatestAt s'.safe_app (sha3_256 (strBytes host)) =
          .ok (v + 1, m2)) ∧
    (∀ now ver u pe m2 s',
      nrs_map_container_remove s name false now = (.ok (ver, u, pe, m2), s') →
      ∃ v m, getLatestAt s.safe_app (sha3_256 (strBytes host)) = .ok (v, m) ∧
        ver = v + 1 ∧
        getLatestAt s'.safe_app (sha3_256 (strBytes host)) =
          .ok (v + 1, m2)) ∧
    (∀ dest1 deflt1 now1 dest2 deflt2 now2 ver1 u1 pe1 m1 s1 ver2 u2 pe2
        mm2 s2,
      nrs_map_container_add s name dest1 deflt1 false now1 =
        (.ok (ver1, u1, pe1, m1), s1) →
      nrs_map_container_add s1 name dest2 deflt2 false now2 =
        (.ok (ver2, u2, pe2, mm2), s2) →
      ver2 = ver1 + 1) := by
  have hpf : parse_url (sanitised_nrs_url name) =
      .ok ⟨sha3_256 (strBytes host), NRS_MAP_TYPE_TAG,
        .PublishedSeqAppendOnlyData, .NrsMapContainer, path, subs⟩ := by
    simp only [parse_url, hfb, hs, xorname_from_nrs_string]
  have hstepA : ∀ (s0 : Safe) dest deflt now ver u pe m2 s',
      nrs_map_container_add s0 name dest deflt false now =
        (.ok (ver, u, pe, m2), s') →
      ∃ v m, getLatestAt s0.safe_app (sha3_256 (strBytes host)) =
          .ok (v, m) ∧ ver = v + 1 ∧
        getLatestAt s'.safe_app (sha3_256 (strBytes host)) =
          .ok (v + 1, m2) := by
    intro s0 dest deflt now ver u pe m2 s' h
    obtain ⟨enc, v, m, link, m2', hp', hg, hu, hr, happ, hbase⟩ :=
      add_ok_inversion h
    have henc : enc = ⟨sha3_256 (strBytes host), NRS_MAP_TYPE_TAG,
        .PublishedSeqAppendOnlyData, .NrsMapContainer, path, subs⟩ := by
      have h2 := hp'.symm.trans hpf
      simpa using h2
    subst henc
    simp only [Prod.mk.injEq] at hr
    obtain ⟨hver, hu2, hpe2, hm2⟩ := hr
    subst hver
    subst hm2
    obtain ⟨es, hes, hvereq, happ2⟩ := append_ok_inversion happ
    have hlen : es.length = v := by omega
    refine ⟨v, m, hg, rfl, ?_⟩
    rw [happ2, ← hlen]
    exact getLatestAt_after_write
  have hstepB : ∀ now ver u pe m2 s',
      nrs_map_container_remove s name false now = (.ok (ver, u, pe, m2), s') →
      ∃ v m, getLatestAt s.safe_app (sha3_256 (strBytes host)) =
          .ok (v, m) ∧ ver = v + 1 ∧
        getLatestAt s'.safe_app (sha3_256 (strBytes host)) =
          .ok (v + 1, m2) := by
    intro now ver u pe m2 s' h
    obtain ⟨enc, v, m, link, m2', hp', hg, hrs, hr, happ, hbase⟩ :=
      remove_ok_inversion h
    have henc : enc = ⟨sha3_256 (strBytes host), NRS_MAP_TYPE_TAG,
        .PublishedSeqAppendOnlyData, .NrsMapContainer, path, subs⟩ := by
      have h2 := hp'.symm.trans hpf
      simpa using h2
    subst henc
    simp only [Prod.mk.injEq] at hr
    obtain ⟨hver, hu2, hpe2, hm2⟩ := hr
    subst hver
    subst hm2
    obtain ⟨es, hes, hvereq, happ2⟩ := append_ok_inversion happ
    have hlen : es.length = v := by omega
    refine ⟨v, m, hg, rfl, ?_⟩
    rw [happ2, ← hlen]
    exact getLatestAt_after_write
  refine ⟨hstepA s, hstepB, ?_⟩
  intro dest1 deflt1 now1 dest2 deflt2 now2 ver1 u1 pe1 m1 s1 ver2 u2 pe2
    mm2 s2 h1 h2
  obtain ⟨v, m, hgv, hv1, hpost⟩ :=
    hstepA s dest1 deflt1 now1 ver1 u1 pe1 m1 s1 h1
  obtain ⟨v', m', hgv', hv2, hpost'⟩ :=
    hstepA s1 dest2 deflt2 now2 ver2 u2 pe2 mm2 s2 h2
  rw [hpost] at hgv'
  simp only [Except.ok.injEq, Prod.mk.injEq] at hgv'
  obtain ⟨hvv, -⟩ := hgv'
  omega

/-- First witness run for C4: non-preview Add over the empty container. -/
def c4run1 : ResultReturn (Nat × XorUrl × ProcessedEntries × NrsMap) × Safe :=
  nrs_map_container_add safeEmptyContainer exName (some exDest) true false exTs

/-- Second witness run for C4: another Add on the resulting state, with the
`make_default` flag toggled. -/
def c4run2 : ResultReturn (Nat × XorUrl × ProcessedEntries × NrsMap) × Safe :=
  nrs_map_container_add c4run1.2 exName (some exDest) false false exTs

set_option maxRecDepth 10000 in
/-- Witness for C4: two consecutive Adds on the same root return versions 1
and 2. -/
theorem claim_c4_witness :
    c4run1 = (.ok (1, exCreateUrl, exPe, exMap), c4run1.2) ∧
    c4run2 = (.ok (2, exCreateUrl, exPe, exMap), c4run2.2) ∧
    (2 : Nat) = 1 + 1 :=
  ⟨rfl, rfl,
    (@claim_c4 safeEmptyContainer exName _ _ _ _ rfl rfl).2.2
      (some exDest) true exTs (some exDest) false exTs 1 exCreateUrl exPe
      exMap c4run1.2 2 exCreateUrl exPe exMap c4run2.2 rfl rfl⟩
